import Mathlib

/-!
# Owner dashboard: reconciliation of the live orders collection

Shallow embedding of the client-side order list handling of the restaurant
owner dashboard (`frontEnd_OwnerSide/src/pages/Dashboard.jsx` and the
components it renders), with the properties of the snapshot load and of the
`/topic/orders` feed updater, followed by the order history lists, the
filters, the phone formats, the payments date range and the summary cards.

Modelling conventions.

* A record is a JavaScript object produced by `JSON.parse`. Only the
  properties the code reads are kept. A string property is `Option String`,
  where `none` stands for a missing, `null` or `undefined` property.
* An `id` is a JSON primitive (`JsId`); on primitives the strict comparison
  `===` of the source is structural equality.
* React state is passed explicitly: a state updater is a function from the
  previous collection to the next one.
* Instants are integers of milliseconds since the epoch; the offset of local
  time from UTC is a constant parameter.
-/

namespace OwnerDashboard

/-- Value of an `id` property: a missing property (`undefined`), `null`, a
number or a string. JSON numbers used as identifiers are integers. -/
inductive JsId where
  | undefined
  | null
  | num (n : Int)
  | str (s : String)
  deriving DecidableEq, Repr

/-- An order record as the dashboard reads it. -/
structure Order where
  id : JsId
  customerName : Option String := none
  userPhone : Option String := none
  paymentMode : Option String := none
  paymentStatus : Option String := none
  orderStatus : Option String := none
  orderTime : Option String := none
  totalPrice : Option Int := none
  deriving DecidableEq, Repr

/-- The method `String.prototype.toLowerCase`, on the ASCII letters. Where the
code compares its result with an ASCII constant (`"cancelled"`, `"delivered"`)
the comparison has the same outcome as in JavaScript, since no character
outside ASCII lower-cases to a letter of these constants. Cased letters outside
ASCII in names and search terms are left as they are. -/
def toLowerCase (s : String) : String :=
  ⟨s.data.map Char.toLower⟩

/-- The method `String.prototype.toUpperCase`, on the ASCII letters. Payment
statuses are taken to be ASCII text (JavaScript also maps the dotless i and the
long s onto `I` and `S`). -/
def toUpperCase (s : String) : String :=
  ⟨s.data.map Char.toUpper⟩

/-- JavaScript truthiness of a string-valued property: missing, `null`,
`undefined` and the empty string are falsy. -/
def truthy (p : Option String) : Bool :=
  match p with
  | none => false
  | some s => s != ""

namespace Dashboard

/-- The guard of the first branch of the feed updater
(`Dashboard.jsx`, lines 138-142):
`updated.orderStatus && (updated.orderStatus.toLowerCase() === "cancelled" ||
updated.orderStatus.toLowerCase() === "delivered")`. -/
def closedStatus (updated : Order) : Bool :=
  match updated.orderStatus with
  | none => false
  | some s =>
    s != "" && (toLowerCase s == "cancelled" || toLowerCase s == "delivered")

/-- The function passed to `setOrders` by the `/topic/orders` subscription
(`Dashboard.jsx`, lines 134-170): `updated` is the parsed message, `prev` the
current collection, the result the next collection. -/
def setOrdersUpdater (updated : Order) (prev : List Order) : List Order :=
  if closedStatus updated then
    prev.filter (fun o => o.id != updated.id)
  else
    let found := prev.any (fun o => o.id == updated.id)
    if !found then
      updated :: prev
    else
      prev.map (fun o => if o.id == updated.id then updated else o)

/-- The parsed body of the response of `/api/orders/dashboard`; `orders` is
`none` when the property is missing or `null`. -/
structure DashboardData where
  orders : Option (List Order)
  deriving DecidableEq, Repr

/-- How the request made by `fetchOrders` ends. -/
inductive FetchOutcome where
  /-- The call `fetch(...)` or `res.json()` rejects. -/
  | rejected
  /-- The response arrives with `res.ok` false. -/
  | notOk
  /-- The response is ok and its body parses to `data`. -/
  | json (data : DashboardData)
  deriving DecidableEq, Repr

/-- The function `fetchOrders` (`Dashboard.jsx`, lines 67-77) as a transition
of the `orders` state: on success `setOrders(data.orders || [])`, on any
failure the `catch` block logs and the state is left as it is. -/
def fetchOrders (prev : List Order) (r : FetchOutcome) : List Order :=
  match r with
  | .rejected => prev
  | .notOk => prev
  | .json data =>
    match data.orders with
    | some l => l
    | none => []

/-- What can happen to the `orders` state of the dashboard: a snapshot request
completes, or the feed delivers a message. -/
inductive Event where
  | fetched (r : FetchOutcome)
  | message (updated : Order)
  deriving DecidableEq, Repr

/-- One transition of the `orders` state. -/
def step (orders : List Order) (e : Event) : List Order :=
  match e with
  | .fetched r => fetchOrders orders r
  | .message updated => setOrdersUpdater updated orders

/-- The `orders` state after a sequence of events, from the initial state
`useState([])`. -/
def run (es : List Event) : List Order :=
  es.foldl step []

/-- The feed updater applied to a sequence of messages in delivery order. -/
def deliver (us : List Order) (orders : List Order) : List Order :=
  us.foldl (fun acc u => setOrdersUpdater u acc) orders

end Dashboard

namespace OrderTable

/-- The predicate of the filter in `validOrders` (`OrderTable.jsx`, lines
48-55): a truthy `paymentStatus` whose upper-case form is neither `FAILED` nor
`PAYMENT_FAILED`, and a truthy `orderStatus` whose lower-case form is neither
`delivered` nor `cancelled`. -/
def validOrder (order : Order) : Bool :=
  match order.paymentStatus, order.orderStatus with
  | some p, some s =>
    p != "" && !(["FAILED", "PAYMENT_FAILED"].contains (toUpperCase p)) &&
      s != "" && toLowerCase s != "delivered" && toLowerCase s != "cancelled"
  | _, _ => false

/-- The list `validOrders` the table renders (`OrderTable.jsx`, lines 46-57);
the prop `orders` is `none` when the value passed is not an array. -/
def validOrders (orders : Option (List Order)) : List Order :=
  match orders with
  | some l => l.filter validOrder
  | none => []

end OrderTable

/-- The test `["FAILED", "PAYMENT_FAILED"].includes(order.paymentStatus
.toUpperCase())` of `OrderTable.jsx` (line 50) and `OrderHistory.jsx`
(line 30), false when there is no payment status. -/
def failedPayment (order : Order) : Bool :=
  match order.paymentStatus with
  | some p => ["FAILED", "PAYMENT_FAILED"].contains (toUpperCase p)
  | none => false

/-- White space and line terminators of ECMAScript, the characters
`String.prototype.trim` strips. -/
def isJsWhiteSpace (c : Char) : Bool :=
  let n := c.toNat
  n == 0x09 || n == 0x0A || n == 0x0B || n == 0x0C || n == 0x0D || n == 0x20 ||
    n == 0xA0 || n == 0x1680 || (0x2000 ≤ n && n ≤ 0x200A) || n == 0x2028 ||
    n == 0x2029 || n == 0x202F || n == 0x205F || n == 0x3000 || n == 0xFEFF

/-- The method `String.prototype.trim`. -/
def trim (s : String) : String :=
  ⟨((s.data.dropWhile isJsWhiteSpace).reverse.dropWhile isJsWhiteSpace).reverse⟩

/-- The method `String.prototype.includes`: `sub` occurs in `s` as a
contiguous run of characters. -/
def includes (s sub : String) : Bool :=
  s.data.tails.any (fun l => sub.data.isPrefixOf l)

namespace Dashboard

/-- The state `filters` of the dashboard (`Dashboard.jsx`, lines 17-21). -/
structure Filters where
  search : String
  payment : String
  status : String
  deriving DecidableEq, Repr

/-- The constant `matchesSearch` of the filter callback (`Dashboard.jsx`, lines
197-199), for the trimmed lower-case search term `s`. -/
def matchesSearch (s : String) (order : Order) : Bool :=
  let name := toLowerCase (order.customerName.getD "")
  let phone := toLowerCase (order.userPhone.getD "")
  s == "" || includes name s || includes phone s

/-- The constant `matchesPayment` (`Dashboard.jsx`, lines 201-203). -/
def matchesPayment (p : String) (order : Order) : Bool :=
  let pay := toLowerCase (order.paymentMode.getD "")
  p == "all" || pay == p || (p == "card" && includes pay "card")

/-- The constant `matchesStatus` (`Dashboard.jsx`, lines 205-206). -/
def matchesStatus (st : String) (order : Order) : Bool :=
  let status := toLowerCase (order.orderStatus.getD "")
  st == "all" || status == st

/-- The memoised list `filtered` (`Dashboard.jsx`, lines 191-210). -/
def filtered (orders : List Order) (filters : Filters) : List Order :=
  let s := toLowerCase (trim filters.search)
  let p := toLowerCase filters.payment
  let st := toLowerCase filters.status
  orders.filter (fun order =>
    matchesSearch s order && matchesPayment p order && matchesStatus st order)

/-- A message of the `/topic/orders` subscription as the handler sees it. -/
inductive Message where
  /-- The body is empty: `!msg.body`. -/
  | noBody
  /-- The body is not JSON text: `JSON.parse` throws. -/
  | malformed
  /-- The body is the JSON text `null`: reading `updated.id` throws. -/
  | jsonNull
  /-- The body parses to the record `updated`. -/
  | record (updated : Order)
  deriving DecidableEq, Repr

/-- The exceptions the subscription handler can raise. -/
inductive HandlerError where
  | parseError
  | typeError
  deriving DecidableEq, Repr

/-- The handler of the `/topic/orders` subscription (`Dashboard.jsx`, lines
124-171) as a transition of the `orders` state: an error leaves the state as it
is, since `setOrders` is not reached. -/
def subscriptionHandler (orders : List Order) (msg : Message) :
    Except HandlerError (List Order) :=
  match msg with
  | .noBody => .ok orders
  | .malformed => .error .parseError
  | .jsonNull => .error .typeError
  | .record updated => .ok (setOrdersUpdater updated orders)

/-- The side effects the feed updater asks for besides its console output. -/
inductive Effect where
  /-- The call `audioRef.current.play()`. -/
  | playSound
  /-- The toast `New order from ...` scheduled with `setTimeout`, with the
  `customerName` of the update. -/
  | toastNewOrder (customerName : Option String)
  deriving DecidableEq, Repr

/-- The function passed to `setOrders` (`Dashboard.jsx`, lines 134-170) with
the side effects it requests: `userInteracted` is `userInteracted.current`,
`audioReady` says that `audioRef.current` is set. -/
def setOrdersUpdaterFx (userInteracted audioReady : Bool) (updated : Order)
    (prev : List Order) : List Order × List Effect :=
  if closedStatus updated then
    (prev.filter (fun o => o.id != updated.id), [])
  else
    let found := prev.any (fun o => o.id == updated.id)
    if !found then
      (updated :: prev,
        (if userInteracted && audioReady then [Effect.playSound] else []) ++
          [Effect.toastNewOrder updated.customerName])
    else
      (prev.map (fun o => if o.id == updated.id then updated else o), [])

end Dashboard

namespace OrdersPage

/-- The function passed to `setOrders` by the feed callback
(`OrdersPage.jsx`, line 14). -/
def setOrdersUpdater (order : Order) (prev : List Order) : List Order :=
  order :: prev

end OrdersPage

namespace OrderManagement

/-- The function passed to `setOrders` by the feed callback
(`OrderManagement.jsx`, line 20). -/
def setOrdersUpdater (newOrder : Order) (prev : List Order) : List Order :=
  newOrder :: prev

end OrderManagement

namespace RestaurantOrders

/-- The function passed to `setOrders` by the feed callback
(`RestaurantOrders.jsx`, lines 37-49): the new collection `updated`. -/
def setOrdersUpdater (newOrder : Order) (prev : List Order) : List Order :=
  prev ++ [newOrder]

end RestaurantOrders

namespace OrderHistory

/-- The two lists of the order history screen (`OrderHistory.jsx`, lines
9-10). -/
structure Lists where
  deliveredOrders : List Order
  cancelledOrders : List Order
  deriving DecidableEq, Repr

/-- The guard `updated.orderStatus && updated.orderStatus.toLowerCase() ===
"delivered"` (`OrderHistory.jsx`, lines 27-28 and 69). -/
def isDelivered (order : Order) : Bool :=
  match order.orderStatus with
  | some s => s != "" && toLowerCase s == "delivered"
  | none => false

/-- The guard `updated.orderStatus && updated.orderStatus.toLowerCase() ===
"cancelled"` (`OrderHistory.jsx`, lines 35-36 and 94). -/
def isCancelled (order : Order) : Bool :=
  match order.orderStatus with
  | some s => s != "" && toLowerCase s == "cancelled"
  | none => false

/-- The predicate of the `delivered` filter of `fetchOrders`
(`OrderHistory.jsx`, lines 26-30). -/
def deliveredFilter (order : Order) : Bool :=
  isDelivered order &&
    (match order.paymentStatus with
      | some p => p != "" && !(["FAILED", "PAYMENT_FAILED"].contains (toUpperCase p))
      | none => false)

/-- The function `fetchOrders` (`OrderHistory.jsx`, lines 18-48) as a
transition of the two lists. -/
def fetchOrders (prev : Lists) (r : Dashboard.FetchOutcome) : Lists :=
  match r with
  | .rejected => prev
  | .notOk => prev
  | .json data =>
    let orders := data.orders.getD []
    { deliveredOrders := orders.filter deliveredFilter
      cancelledOrders := orders.filter isCancelled }

/-- The "add or update" updater of either list (`OrderHistory.jsx`, lines
82-91 and 107-116). -/
def addOrUpdate (updated : Order) (prev : List Order) : List Order :=
  let found := prev.any (fun o => o.id == updated.id)
  if !found then updated :: prev
  else prev.map (fun o => if o.id == updated.id then updated else o)

/-- The "remove from the other list" updater (`OrderHistory.jsx`, lines 73-79
and 98-104). -/
def removeById (updated : Order) (prev : List Order) : List Order :=
  prev.filter (fun o => o.id != updated.id)

/-- The handler of the `/topic/orders` subscription for a parsed record
(`OrderHistory.jsx`, lines 69-117): the delivered branch, then the cancelled
branch. -/
def handleUpdate (lists : Lists) (updated : Order) : Lists :=
  let l1 : Lists :=
    if isDelivered updated then
      { deliveredOrders := addOrUpdate updated lists.deliveredOrders
        cancelledOrders := removeById updated lists.cancelledOrders }
    else lists
  if isCancelled updated then
    { deliveredOrders := removeById updated l1.deliveredOrders
      cancelledOrders := addOrUpdate updated l1.cancelledOrders }
  else l1

/-- What can happen to the lists of the order history screen. -/
inductive Event where
  | fetched (r : Dashboard.FetchOutcome)
  | message (updated : Order)
  deriving DecidableEq, Repr

/-- One transition of the two lists. -/
def step (lists : Lists) (e : Event) : Lists :=
  match e with
  | .fetched r => fetchOrders lists r
  | .message updated => handleUpdate lists updated

/-- The lists after a sequence of events, from the initial empty lists. -/
def run (es : List Event) : Lists :=
  es.foldl step { deliveredOrders := [], cancelledOrders := [] }

end OrderHistory

namespace OrderDetailsModal

/-- The function `formatPhone` (`OrderDetailsModal.jsx`, lines 20-27). The
phone is given by its text (`phone.toString()`), `none` when it is missing or
`null`. -/
def formatPhone (phone : Option String) : String :=
  match phone with
  | none => "—"
  | some p =>
    if p == "" then "—"
    else
      let cleaned := p.data.filter Char.isDigit
      if ['9', '1'].isPrefixOf cleaned then
        ⟨['+'] ++ cleaned.take 2 ++ ['-'] ++ cleaned.drop 2⟩
      else
        ⟨"+91-".data ++ cleaned⟩

end OrderDetailsModal

/-- Two strings are equal ignoring the case of their letters. -/
def EqIgnoreCase (a b : String) : Prop :=
  toLowerCase a = toLowerCase b

instance (a b : String) : Decidable (EqIgnoreCase a b) :=
  inferInstanceAs (Decidable (toLowerCase a = toLowerCase b))

/-- An order the table is to show, in the words of the description of
`validOrders`: a non-empty payment status other than `FAILED` and
`PAYMENT_FAILED`, and a non-empty order status other than `delivered` and
`cancelled`, all four ignoring case. -/
def Displayable (o : Order) : Prop :=
  (∃ p, o.paymentStatus = some p ∧ p ≠ "" ∧
    ¬ EqIgnoreCase p "FAILED" ∧ ¬ EqIgnoreCase p "PAYMENT_FAILED") ∧
  (∃ s, o.orderStatus = some s ∧ s ≠ "" ∧
    ¬ EqIgnoreCase s "delivered" ∧ ¬ EqIgnoreCase s "cancelled")

/-- The update `u` has been moved from the list `src` into the list `dst`,
`src2` and `dst2` being the lists afterwards: `src2` is `src` without the
records of id `u.id` (a sublist that keeps every other record as often as
before), and `dst2` holds `u`, in front of `dst` when `dst` had no record of
that id, otherwise in place of the records of that id, position by
position. -/
def MovedInto (u : Order) (src dst src2 dst2 : List Order) : Prop :=
  (∀ o ∈ src2, o.id ≠ u.id) ∧
  src2.Sublist src ∧
  (∀ o : Order, o.id ≠ u.id → src2.count o = src.count o) ∧
  u ∈ dst2 ∧
  ((∀ o ∈ dst, o.id ≠ u.id) → dst2 = u :: dst) ∧
  ((∃ o ∈ dst, o.id = u.id) →
    dst2.length = dst.length ∧
    ∀ (i : Nat) (o : Order), dst.get? i = some o →
      dst2.get? i = some (if o.id = u.id then u else o))

/-- The identifiers of a collection, in order. -/
def ids (c : List Order) : List JsId :=
  c.map Order.id

/-- A collection holds at most one record per identifier. -/
def UniqueIds (c : List Order) : Prop :=
  (ids c).Nodup

instance (c : List Order) : Decidable (UniqueIds c) :=
  inferInstanceAs (Decidable (ids c).Nodup)

/-- The deduplicated, last-wins form of a snapshot, after the specification of
`replaceAll`: of the records that share an identifier only the last occurrence
is kept, the kept records staying in snapshot order. -/
def dedupLastWins : List Order → List Order
  | [] => []
  | o :: rest =>
    if rest.any (fun r => r.id == o.id) then dedupLastWins rest
    else o :: dedupLastWins rest

/-- The browser store `localStorage`: the keys that have been written with
their values. -/
abbrev Storage := List (String × String)

/-- The method `localStorage.getItem`: `none` stands for `null`, the answer for
a key that was never written. -/
def Storage.getItem (storage : Storage) (key : String) : Option String :=
  storage.lookup key

/-- The method `localStorage.setItem`. -/
def Storage.setItem (storage : Storage) (key value : String) : Storage :=
  (key, value) :: storage.filter (fun kv => kv.1 != key)

namespace Dashboard

/-- The initialiser of the state `isLive` (`Dashboard.jsx`, lines 23-26). -/
def initialIsLive (storage : Storage) : Bool :=
  let saved := storage.getItem "liveOrdersEnabled"
  saved == some "true"

/-- The method `Boolean.prototype.toString`. -/
def boolToString (b : Bool) : String :=
  if b then "true" else "false"

/-- The click handler of the live toggle (`Dashboard.jsx`, lines 234-240): the
new value of `isLive` and the store after `localStorage.setItem`. -/
def toggleLive (isLive : Bool) (storage : Storage) : Bool × Storage :=
  let newState := !isLive
  (newState, storage.setItem "liveOrdersEnabled" (boolToString newState))

end Dashboard

namespace OrderFilters

/-- The value `clear` installs (`OrderFilters.jsx`, lines 5-10). -/
def clear : Dashboard.Filters :=
  { search := "", payment := "All", status := "All" }

/-- The constant `isFiltered` (`OrderFilters.jsx`, lines 12-15). -/
def isFiltered (filters : Dashboard.Filters) : Bool :=
  trim filters.search != "" || filters.payment != "All" || filters.status != "All"

end OrderFilters

namespace PaymentsFinance

/-- Milliseconds in a day. -/
def msPerDay : Int := 86400000

/-- The time value of `new Date(startDate)` for the value `YYYY-MM-DD` of a
date input, given as the number `day` of days since 1970-01-01: a date-only
string is read as midnight UTC. -/
def dateOnly (day : Int) : Int :=
  day * msPerDay

/-- The time value of `new Date(endDate + "T23:59:59")`: a date-time string
without offset is read in local time, `tz` being the offset of local time from
UTC in milliseconds (19800000 for India). -/
def localEndOfDay (tz : Int) (day : Int) : Int :=
  day * msPerDay + 86399000 - tz

/-- The variable `matchesDate` at the end of the filter callback
(`PaymentsFinance.jsx`, lines 83-94). `startDate` and `endDate` are `none` for
the empty string, `orderTime` is the time value of `new Date(t.orderTime)`,
`none` when `t.orderTime` is missing. -/
def matchesDate (tz : Int) (startDate endDate : Option Int)
    (orderTime : Option Int) : Bool :=
  if startDate.isSome || endDate.isSome then
    match orderTime with
    | some orderDate =>
      (match startDate with
        | none => true
        | some d => decide (orderDate ≥ dateOnly d)) &&
      (match endDate with
        | none => true
        | some d => decide (orderDate ≤ localEndOfDay tz d))
    | none => false
  else true

/-- The instant 00:00:00 local time of day `day`, as a time value. -/
def localStartOfDay (tz : Int) (day : Int) : Int :=
  day * msPerDay - tz

/-- The date range in the words of the description: not before 00:00:00 of
the start day and not after 23:59:59 of the end day, both in local time. -/
def InWholeDays (tz : Int) (startDate endDate : Option Int) (t : Int) : Prop :=
  (∀ d, startDate = some d → localStartOfDay tz d ≤ t) ∧
  (∀ d, endDate = some d → t ≤ localStartOfDay tz d + 86399000)

end PaymentsFinance

namespace RestaurantOrders

/-- The function `applyFilter` (`RestaurantOrders.jsx`, lines 73-83): the list
it installs with `setFilteredOrders`. -/
def applyFilter (data : List Order) (type : String) : List Order :=
  if type == "" then data
  else
    data.filter (fun order =>
      match order.paymentMode with
      | some m => m != "" && toLowerCase m == toLowerCase type
      | none => false)

end RestaurantOrders

namespace OrderTable

/-- The replacement `String(order.userPhone).replace(/^(\+91|91)?/, "")` of the
phone cell (`OrderTable.jsx`, line 191; `OrderHistory.jsx`, line 460). -/
def stripCountryCode (phone : String) : String :=
  if ['+', '9', '1'].isPrefixOf phone.data then ⟨phone.data.drop 3⟩
  else if ['9', '1'].isPrefixOf phone.data then ⟨phone.data.drop 2⟩
  else phone

/-- The text of the phone cell: `+91-` followed by the stripped phone. -/
def phoneCell (userPhone : String) : String :=
  "+91-" ++ stripCountryCode userPhone

end OrderTable

namespace OrderSummaryCards

/-- The cards `stats` computes (`OrderSummaryCards.jsx`, lines 12-60), each
with its title and value; the prop `orders` is `none` when the value passed is
not an array. -/
def stats (orders : Option (List Order)) : List (String × Nat) :=
  match orders with
  | none => []
  | some l =>
    let pending := (l.filter (fun o => o.orderStatus == some "Pending")).length
    let preparing := (l.filter (fun o => o.orderStatus == some "Preparing")).length
    let confirmed := (l.filter (fun o => o.orderStatus == some "Confirmed")).length
    let completed := (l.filter (fun o => o.orderStatus == some "Completed")).length
    let delivered := (l.filter (fun o => o.orderStatus == some "Delivered")).length
    let cancelled := (l.filter (fun o => o.orderStatus == some "Cancelled")).length
    [("Total Orders", l.length), ("Pending", pending), ("Preparing", preparing),
     ("Completed", confirmed + completed), ("Delivered", delivered),
     ("Cancelled", cancelled)]

/-- The value of the card with the given title, 0 when there is none. -/
def cardValue (cards : List (String × Nat)) (title : String) : Nat :=
  (cards.lookup title).getD 0

/-- One of the six status strings the cards count. -/
def CountedStatus (o : Order) : Prop :=
  o.orderStatus = some "Pending" ∨ o.orderStatus = some "Preparing" ∨
  o.orderStatus = some "Confirmed" ∨ o.orderStatus = some "Completed" ∨
  o.orderStatus = some "Delivered" ∨ o.orderStatus = some "Cancelled"

instance (o : Order) : Decidable (CountedStatus o) := by
  unfold CountedStatus
  infer_instance

/-- The sum of the values of the five status cards. -/
def statusCardsSum (cards : List (String × Nat)) : Nat :=
  cardValue cards "Pending" + cardValue cards "Preparing" +
    cardValue cards "Completed" + cardValue cards "Delivered" +
    cardValue cards "Cancelled"

end OrderSummaryCards

namespace OrderHistory

/-- The function `isWithinDateRange` (`OrderHistory.jsx`, lines 144-168). The
comparison of lines 147-167, which reads the current time and the custom date,
is the parameter `clock`, applied to a present order time and the filter. -/
def isWithinDateRange (clock : String → String → Bool)
    (orderTime : Option String) (filter : String) : Bool :=
  match orderTime with
  | none => true
  | some t => if t == "" || filter == "all" then true else clock t filter

/-- The memoised list `filteredOrders` (`OrderHistory.jsx`, lines 170-183). -/
def filteredOrders (clock : String → String → Bool) (activeTab : String)
    (lists : Lists) (searchQuery dateFilter : String) : List Order :=
  let currentOrders :=
    if activeTab == "delivered" then lists.deliveredOrders
    else lists.cancelledOrders
  currentOrders.filter (fun order =>
    let query := trim (toLowerCase searchQuery)
    let matchesSearch :=
      query == "" ||
        includes (toLowerCase (order.customerName.getD "")) query ||
        includes (order.userPhone.getD "") query
    let matchesDate := isWithinDateRange clock order.orderTime dateFilter
    matchesSearch && matchesDate)

/-- The memoised sum `totalRevenue` (`OrderHistory.jsx`, lines 185-187);
prices are integers. -/
def totalRevenue (filteredOrders : List Order) : Int :=
  filteredOrders.foldl (fun sum order => sum + order.totalPrice.getD 0) 0

/-- The statements `if (!groups[dateKey]) groups[dateKey] = [];
groups[dateKey].push(order)` (`OrderHistory.jsx`, lines 198-201) on the object
`groups`, kept as the list of its entries in creation order. -/
def pushToGroup (dateKey : String) (order : Order) :
    List (String × List Order) → List (String × List Order)
  | [] => [(dateKey, [order])]
  | (k, os) :: rest =>
    if k == dateKey then (k, os ++ [order]) :: rest
    else (k, os) :: pushToGroup dateKey order rest

/-- The callback of the `forEach` (`OrderHistory.jsx`, lines 192-202) on the
object `acc`: an order without `orderTime` is skipped. The parameter `dateKey`
is the key `YYYY-MM-DD` computed from `new Date(order.orderTime)` in local
time. -/
def addOrder (dateKey : String → String) (acc : List (String × List Order))
    (order : Order) : List (String × List Order) :=
  match order.orderTime with
  | none => acc
  | some t => if t == "" then acc else pushToGroup (dateKey t) order acc

/-- The object `groups` after the `forEach` (`OrderHistory.jsx`, lines
190-202). -/
def groups (dateKey : String → String) (filteredOrders : List Order) :
    List (String × List Order) :=
  filteredOrders.foldl (addOrder dateKey) []

/-- The order of two keys `YYYY-MM-DD` under `localeCompare`: character by
character, the first difference decides. -/
def keyLe : List Char → List Char → Bool
  | [], _ => true
  | _ :: _, [] => false
  | a :: as, b :: bs =>
    decide (a.toNat < b.toNat) || (a.toNat == b.toNat && keyLe as bs)

/-- The memoised list `groupedOrders` (`OrderHistory.jsx`, lines 189-205): the
entries of `groups` sorted by key, latest first. -/
def groupedOrders (dateKey : String → String) (filteredOrders : List Order) :
    List (String × List Order) :=
  (groups dateKey filteredOrders).insertionSort
    (fun a b => keyLe b.1.data a.1.data = true)

/-- The two lists are disjoint by id and every record has the status of its
list. -/
def Consistent (lists : Lists) : Prop :=
  (∀ o ∈ lists.deliveredOrders, ∀ o2 ∈ lists.cancelledOrders, o.id ≠ o2.id) ∧
  (∀ o ∈ lists.deliveredOrders, isDelivered o = true) ∧
  (∀ o ∈ lists.cancelledOrders, isCancelled o = true)

end OrderHistory

/-! ## The three branches of the feed updater -/

namespace Dashboard

theorem setOrdersUpdater_closed (u : Order) (c : List Order)
    (h : closedStatus u = true) :
    setOrdersUpdater u c = c.filter (fun o => o.id != u.id) := by
  simp [setOrdersUpdater, h]

theorem setOrdersUpdater_absent (u : Order) (c : List Order)
    (h : closedStatus u = false) (habs : ∀ o ∈ c, o.id ≠ u.id) :
    setOrdersUpdater u c = u :: c := by
  have hany : c.any (fun o => o.id == u.id) = false := by
    rw [List.any_eq_false]
    intro o ho
    simpa using habs o ho
  simp [setOrdersUpdater, h, hany]

theorem setOrdersUpdater_present (u : Order) (c : List Order)
    (h : closedStatus u = false) (hpres : ∃ o ∈ c, o.id = u.id) :
    setOrdersUpdater u c = c.map (fun o => if o.id == u.id then u else o) := by
  have hany : c.any (fun o => o.id == u.id) = true := by
    rw [List.any_eq_true]
    obtain ⟨o, ho, hid⟩ := hpres
    exact ⟨o, ho, by simpa using hid⟩
  simp [setOrdersUpdater, h, hany]

theorem ids_replace (u : Order) (c : List Order) :
    ids (c.map (fun o => if o.id == u.id then u else o)) = ids c := by
  unfold ids
  rw [List.map_map]
  apply List.map_congr_left
  intro o _
  by_cases hid : o.id = u.id
  · simp [hid]
  · simp [hid]

theorem uniqueIds_filter (c : List Order) (p : Order → Bool)
    (h : UniqueIds c) : UniqueIds (c.filter p) := by
  unfold UniqueIds ids at *
  exact List.Nodup.sublist (List.Sublist.map _ (List.filter_sublist c)) h

theorem mem_ids_iff (i : JsId) (c : List Order) :
    i ∈ ids c ↔ ∃ o ∈ c, o.id = i := by
  simp [ids]

theorem uniqueIds_setOrdersUpdater (u : Order) (c : List Order)
    (h : UniqueIds c) : UniqueIds (setOrdersUpdater u c) := by
  cases hc : closedStatus u with
  | true =>
    rw [setOrdersUpdater_closed u c hc]
    exact uniqueIds_filter c _ h
  | false =>
    by_cases hpres : ∃ o ∈ c, o.id = u.id
    · rw [setOrdersUpdater_present u c hc hpres]
      unfold UniqueIds
      rw [ids_replace]
      exact h
    · have habs : ∀ o ∈ c, o.id ≠ u.id := by
        intro o ho hid
        exact hpres ⟨o, ho, hid⟩
      rw [setOrdersUpdater_absent u c hc habs]
      unfold UniqueIds ids at *
      rw [List.map_cons, List.nodup_cons]
      refine ⟨?_, h⟩
      intro hmem
      rw [List.mem_map] at hmem
      obtain ⟨o, ho, hid⟩ := hmem
      exact habs o ho hid

theorem uniqueIds_step (c : List Order) (e : Event) (hc : UniqueIds c)
    (he : ∀ l, e = Event.fetched (FetchOutcome.json ⟨some l⟩) → UniqueIds l) :
    UniqueIds (step c e) := by
  cases e with
  | message u => exact uniqueIds_setOrdersUpdater u c hc
  | fetched r =>
    cases r with
    | rejected => exact hc
    | notOk => exact hc
    | json data =>
      obtain ⟨orders⟩ := data
      cases orders with
      | none => exact List.nodup_nil
      | some l => exact he l rfl

theorem uniqueIds_foldl_step (es : List Event) :
    ∀ c : List Order, UniqueIds c →
      (∀ l, Event.fetched (FetchOutcome.json ⟨some l⟩) ∈ es → UniqueIds l) →
      UniqueIds (es.foldl step c) := by
  induction es with
  | nil => intro c hc _; exact hc
  | cons e rest ih =>
    intro c hc hs
    rw [List.foldl_cons]
    apply ih
    · apply uniqueIds_step c e hc
      intro l hl
      exact hs l (by rw [hl]; exact List.mem_cons_self _ _)
    · intro l hl
      exact hs l (List.mem_cons_of_mem _ hl)

theorem replace_replace (u : Order) (c : List Order) :
    (c.map (fun o => if o.id == u.id then u else o)).map
        (fun o => if o.id == u.id then u else o)
      = c.map (fun o => if o.id == u.id then u else o) := by
  rw [List.map_map]
  apply List.map_congr_left
  intro o _
  by_cases hid : o.id = u.id
  · simp [hid]
  · simp [hid]

theorem replace_of_absent (u : Order) (c : List Order)
    (habs : ∀ o ∈ c, o.id ≠ u.id) :
    c.map (fun o => if o.id == u.id then u else o) = c := by
  conv_rhs => rw [← List.map_id c]
  apply List.map_congr_left
  intro o ho
  simp [habs o ho]

theorem filter_of_absent (i : JsId) (c : List Order)
    (habs : ∀ o ∈ c, o.id ≠ i) :
    c.filter (fun o => o.id != i) = c := by
  rw [List.filter_eq_self]
  intro o ho
  simpa using habs o ho

theorem deliver_closed_of_absent (i : JsId) (us : List Order) :
    ∀ c : List Order, (∀ u ∈ us, u.id = i ∧ closedStatus u = true) →
      (∀ o ∈ c, o.id ≠ i) → deliver us c = c := by
  induction us with
  | nil => intro c _ _; rfl
  | cons u rest ih =>
    intro c hus habs
    have hu := hus u (List.mem_cons_self _ _)
    unfold deliver
    rw [List.foldl_cons, setOrdersUpdater_closed u c hu.2, hu.1,
      filter_of_absent i c habs]
    exact ih c (fun v hv => hus v (List.mem_cons_of_mem _ hv)) habs

end Dashboard

theorem dedupLastWins_of_unique (l : List Order) (h : UniqueIds l) :
    dedupLastWins l = l := by
  induction l with
  | nil => rfl
  | cons o rest ih =>
    unfold UniqueIds ids at h
    rw [List.map_cons, List.nodup_cons] at h
    have hany : rest.any (fun r => r.id == o.id) = false := by
      rw [List.any_eq_false]
      intro r hr hid
      apply h.1
      rw [List.mem_map]
      exact ⟨r, hr, by simpa using hid⟩
    rw [dedupLastWins, hany]
    simp only [Bool.false_eq_true, if_false]
    rw [ih h.2]

theorem validOrder_not_closed (o : Order) (h : OrderTable.validOrder o = true) :
    Dashboard.closedStatus o = false := by
  unfold OrderTable.validOrder at h
  unfold Dashboard.closedStatus
  cases hp : o.paymentStatus with
  | none => simp [hp] at h
  | some p =>
    cases hs : o.orderStatus with
    | none => simp [hp, hs] at h
    | some st =>
      simp only [hp, hs, Bool.and_eq_true, bne_iff_ne, ne_eq] at h
      simp [h.1.2, h.2]

/-! ## Uniqueness of identifiers -/

namespace Dashboard

/-- C1, as stated, fails: a snapshot that carries the same id twice is
installed as it is, so after one snapshot load the collection holds two
records with id 1. -/
theorem run_duplicate_snapshot :
    ¬ UniqueIds (run [Event.fetched (FetchOutcome.json
        ⟨some [{ id := .num 1, orderStatus := some "Pending" },
               { id := .num 1, orderStatus := some "Accepted" }]⟩)]) := by
  decide

/-- C1, amended: from the empty collection, after every finite sequence of
snapshot loads and feed updates in which every installed snapshot has pairwise
distinct ids, the orders collection has no two records with the same id. -/
theorem run_uniqueIds (es : List Event)
    (h : ∀ l, Event.fetched (FetchOutcome.json ⟨some l⟩) ∈ es → UniqueIds l) :
    UniqueIds (run es) :=
  uniqueIds_foldl_step es [] List.nodup_nil h

/-- Witness of `run_uniqueIds`: a snapshot of two orders, then a new order, a
repeated order and a delivered order from the feed. -/
theorem run_uniqueIds_witness :
    UniqueIds (run
      [Event.fetched (FetchOutcome.json
        ⟨some [{ id := .num 1, orderStatus := some "Pending" },
               { id := .num 2, orderStatus := some "Preparing" }]⟩),
       Event.message { id := .num 3, orderStatus := some "Pending" },
       Event.message { id := .num 2, orderStatus := some "Completed" },
       Event.message { id := .num 1, orderStatus := some "Delivered" }]) :=
  run_uniqueIds _ (by
    intro l hl
    simp only [List.mem_cons, Event.fetched.injEq, FetchOutcome.json.injEq,
      DashboardData.mk.injEq, Option.some.injEq, List.mem_singleton,
      reduceCtorEq, or_false, List.not_mem_nil] at hl
    subst hl
    decide)

/-- C2: the feed updater preserves uniqueness: if the collection has pairwise
distinct ids, so has the collection the updater returns, whichever branch
(removal, insertion, replacement in place) is taken. -/
theorem feedUpdate_preserves_uniqueIds (u : Order) (c : List Order)
    (h : UniqueIds c) : UniqueIds (setOrdersUpdater u c) :=
  uniqueIds_setOrdersUpdater u c h

/-- Witness of `feedUpdate_preserves_uniqueIds`: an update for an id that is
present. -/
theorem feedUpdate_preserves_uniqueIds_witness :
    UniqueIds [({ id := .num 1, orderStatus := some "Pending" } : Order),
               { id := .str "a7", orderStatus := some "Preparing" }] ∧
    UniqueIds (setOrdersUpdater { id := .str "a7", orderStatus := some "Completed" }
      [{ id := .num 1, orderStatus := some "Pending" },
       { id := .str "a7", orderStatus := some "Preparing" }]) :=
  ⟨by decide, feedUpdate_preserves_uniqueIds _ _ (by decide)⟩

/-! ## The branches of the feed updater -/

/-- C3: terminal removal. For an update whose `orderStatus` is `delivered` or
`cancelled` ignoring case, the result holds no record with the update's id; it
is the collection with exactly those records dropped, so it is a sublist of the
collection (records unchanged, same relative order) in which every record with
another id occurs as often as before; and if the id was absent the collection
is returned unchanged. -/
theorem feedUpdate_terminal_removes (u : Order) (c : List Order)
    (h : closedStatus u = true) :
    (∀ o ∈ setOrdersUpdater u c, o.id ≠ u.id) ∧
    (setOrdersUpdater u c).Sublist c ∧
    (∀ o : Order, o.id ≠ u.id → (setOrdersUpdater u c).count o = c.count o) ∧
    ((∀ o ∈ c, o.id ≠ u.id) → setOrdersUpdater u c = c) := by
  rw [setOrdersUpdater_closed u c h]
  refine ⟨?_, List.filter_sublist c, ?_, filter_of_absent u.id c⟩
  · intro o ho
    simpa using (List.mem_filter.mp ho).2
  · intro o ho
    rw [List.count_filter]
    simpa using ho

/-- Witness of `feedUpdate_terminal_removes`: order 1 is delivered. -/
theorem feedUpdate_terminal_removes_witness :
    setOrdersUpdater { id := .num 1, orderStatus := some "DELIVERED" }
        [{ id := .num 3, orderStatus := some "Pending" },
         { id := .num 1, orderStatus := some "Accepted" }]
      = [{ id := .num 3, orderStatus := some "Pending" }] ∧
    ∀ o ∈ setOrdersUpdater { id := .num 1, orderStatus := some "DELIVERED" }
        [{ id := .num 3, orderStatus := some "Pending" },
         { id := .num 1, orderStatus := some "Accepted" }], o.id ≠ JsId.num 1 :=
  ⟨by decide, (feedUpdate_terminal_removes
    { id := .num 1, orderStatus := some "DELIVERED" }
    [{ id := .num 3, orderStatus := some "Pending" },
     { id := .num 1, orderStatus := some "Accepted" }] (by decide)).1⟩

/-- C4: insertion, newest first. For an update whose status is not
delivered/cancelled and whose id is not in the collection, the result is the
update followed by the previous collection, one record longer. -/
theorem feedUpdate_inserts_first (u : Order) (c : List Order)
    (h : closedStatus u = false) (habs : ∀ o ∈ c, o.id ≠ u.id) :
    setOrdersUpdater u c = u :: c ∧
    (setOrdersUpdater u c).length = c.length + 1 := by
  rw [setOrdersUpdater_absent u c h habs]
  exact ⟨rfl, List.length_cons u c⟩

/-- Witness of `feedUpdate_inserts_first`: order 3 arrives while order 1 is
held. -/
theorem feedUpdate_inserts_first_witness :
    setOrdersUpdater { id := .num 3, orderStatus := some "Pending" }
        [{ id := .num 1, orderStatus := some "Accepted" }]
      = [{ id := .num 3, orderStatus := some "Pending" },
         { id := .num 1, orderStatus := some "Accepted" }] :=
  (feedUpdate_inserts_first { id := .num 3, orderStatus := some "Pending" }
    [{ id := .num 1, orderStatus := some "Accepted" }] (by decide) (by decide)).1

/-- C5: update in place. For an update whose status is not delivered/cancelled
and whose id is in the collection, the result has the length of the collection,
holds the update at every position that held a record with that id and the
original record at every other position. -/
theorem feedUpdate_replaces_in_place (u : Order) (c : List Order)
    (h : closedStatus u = false) (hpres : ∃ o ∈ c, o.id = u.id) :
    (setOrdersUpdater u c).length = c.length ∧
    ∀ (i : Nat) (o : Order), c.get? i = some o →
      (setOrdersUpdater u c).get? i = some (if o.id = u.id then u else o) := by
  rw [setOrdersUpdater_present u c h hpres]
  refine ⟨List.length_map _ _, ?_⟩
  intro i o hio
  rw [List.get?_eq_getElem?] at hio
  rw [List.get?_eq_getElem?, List.getElem?_map, hio]
  by_cases hid : o.id = u.id
  · simp [hid]
  · simp [hid]

/-- Witness of `feedUpdate_replaces_in_place`: order 1 goes from Pending to
Accepted and keeps the second position. -/
theorem feedUpdate_replaces_in_place_witness :
    (setOrdersUpdater { id := .num 1, orderStatus := some "Accepted" }
        [{ id := .num 3, orderStatus := some "Pending" },
         { id := .num 1, orderStatus := some "Pending" }]).length = 2 ∧
    setOrdersUpdater { id := .num 1, orderStatus := some "Accepted" }
        [{ id := .num 3, orderStatus := some "Pending" },
         { id := .num 1, orderStatus := some "Pending" }]
      = [{ id := .num 3, orderStatus := some "Pending" },
         { id := .num 1, orderStatus := some "Accepted" }] :=
  ⟨(feedUpdate_replaces_in_place { id := .num 1, orderStatus := some "Accepted" }
      [{ id := .num 3, orderStatus := some "Pending" },
       { id := .num 1, orderStatus := some "Pending" }] (by decide) (by decide)).1,
   by decide⟩

/-! ## The snapshot load -/

/-- C6, as stated, fails: a snapshot with two records of id 1 is installed with
both records, which is not its last-wins deduplicated form. -/
theorem fetchOrders_keeps_duplicates :
    fetchOrders [] (FetchOutcome.json
        ⟨some [{ id := .num 1, orderStatus := some "Pending" },
               { id := .num 1, orderStatus := some "Accepted" }]⟩)
      ≠ dedupLastWins [{ id := .num 1, orderStatus := some "Pending" },
                       { id := .num 1, orderStatus := some "Accepted" }] := by
  decide

/-- C6, amended: after `fetchOrders` installs a snapshot the orders collection
is the snapshot exactly as received, same records in the same order, duplicates
included; it equals the last-wins deduplicated form of the snapshot whenever
the snapshot has pairwise distinct ids. -/
theorem fetchOrders_installs_snapshot (prev S : List Order) :
    fetchOrders prev (FetchOutcome.json ⟨some S⟩) = S ∧
    (UniqueIds S →
      fetchOrders prev (FetchOutcome.json ⟨some S⟩) = dedupLastWins S) :=
  ⟨rfl, fun h => (dedupLastWins_of_unique S h).symm⟩

/-- Witness of `fetchOrders_installs_snapshot`: a snapshot of two distinct
orders replaces a collection that held order 9. -/
theorem fetchOrders_installs_snapshot_witness :
    UniqueIds [({ id := .num 1, orderStatus := some "Pending" } : Order),
               { id := .num 2, orderStatus := some "Preparing" }] ∧
    fetchOrders [{ id := .num 9 }] (FetchOutcome.json
        ⟨some [{ id := .num 1, orderStatus := some "Pending" },
               { id := .num 2, orderStatus := some "Preparing" }]⟩)
      = dedupLastWins [{ id := .num 1, orderStatus := some "Pending" },
                       { id := .num 2, orderStatus := some "Preparing" }] :=
  ⟨by decide, (fetchOrders_installs_snapshot [{ id := .num 9 }]
    [{ id := .num 1, orderStatus := some "Pending" },
     { id := .num 2, orderStatus := some "Preparing" }]).2 (by decide)⟩

/-- C7: a successful snapshot load discards the previous collection: the
collection after `fetchOrders` is the same whatever the previous collection
was, each of its records is a record of `data.orders`, and a missing or empty
`data.orders` yields the empty collection. -/
theorem fetchOrders_discards_previous (prev prev2 : List Order)
    (data : DashboardData) :
    fetchOrders prev (FetchOutcome.json data)
      = fetchOrders prev2 (FetchOutcome.json data) ∧
    (∀ o ∈ fetchOrders prev (FetchOutcome.json data),
      ∃ l, data.orders = some l ∧ o ∈ l) ∧
    fetchOrders prev (FetchOutcome.json ⟨none⟩) = [] ∧
    fetchOrders prev (FetchOutcome.json ⟨some []⟩) = [] := by
  refine ⟨rfl, ?_, rfl, rfl⟩
  obtain ⟨orders⟩ := data
  cases orders with
  | none => intro o ho; simp [fetchOrders] at ho
  | some l => intro o ho; exact ⟨l, rfl, ho⟩

/-- C8, as stated, fails: the snapshot of a pending order 1 and a delivered
order 2 is installed whole, so the collection holds the delivered record and is
not the one-record collection of the claim. -/
theorem fetchOrders_keeps_delivered :
    (∃ o ∈ fetchOrders [] (FetchOutcome.json
        ⟨some [{ id := .num 1, orderStatus := some "Pending" },
               { id := .num 2, orderStatus := some "Delivered" }]⟩),
      closedStatus o = true) ∧
    fetchOrders [] (FetchOutcome.json
        ⟨some [{ id := .num 1, orderStatus := some "Pending" },
               { id := .num 2, orderStatus := some "Delivered" }]⟩)
      ≠ [{ id := .num 1, orderStatus := some "Pending" }] := by
  decide

/-- C8, amended: `fetchOrders` installs the snapshot unfiltered, and the
delivered or cancelled records (the statuses the feed updater removes) are
left out when the collection is displayed: the list `validOrders` computed by
the order table from the installed collection contains no record whose
`orderStatus` is delivered or cancelled. The snapshot of a paid pending order 1
and a paid delivered order 2 is installed with both records and displayed as
the pending order alone. -/
theorem validOrders_of_snapshot_not_closed (prev S : List Order) :
    fetchOrders prev (FetchOutcome.json ⟨some S⟩) = S ∧
    (∀ o ∈ OrderTable.validOrders
        (some (fetchOrders prev (FetchOutcome.json ⟨some S⟩))),
      closedStatus o = false) ∧
    OrderTable.validOrders (some (fetchOrders prev (FetchOutcome.json
        ⟨some [{ id := .num 1, paymentStatus := some "PAID",
                 orderStatus := some "Pending" },
               { id := .num 2, paymentStatus := some "PAID",
                 orderStatus := some "Delivered" }]⟩)))
      = [{ id := .num 1, paymentStatus := some "PAID",
           orderStatus := some "Pending" }] := by
  refine ⟨rfl, ?_, ?_⟩
  · intro o ho
    exact validOrder_not_closed o (List.mem_filter.mp ho).2
  · simp only [fetchOrders]
    decide

/-! ## Repeated updates -/

/-- C9: idempotence of repeated identical updates: for an update whose status
is not delivered/cancelled, applying the feed updater twice with it gives the
collection that applying it once gives. -/
theorem feedUpdate_idempotent (u : Order) (c : List Order)
    (h : closedStatus u = false) :
    setOrdersUpdater u (setOrdersUpdater u c) = setOrdersUpdater u c := by
  by_cases hpres : ∃ o ∈ c, o.id = u.id
  · rw [setOrdersUpdater_present u c h hpres]
    have hpres2 : ∃ o ∈ c.map (fun o => if o.id == u.id then u else o),
        o.id = u.id := by
      obtain ⟨o, ho, hid⟩ := hpres
      refine ⟨u, ?_, rfl⟩
      rw [List.mem_map]
      exact ⟨o, ho, by simp [hid]⟩
    rw [setOrdersUpdater_present u _ h hpres2, replace_replace]
  · have habs : ∀ o ∈ c, o.id ≠ u.id := by
      intro o ho hid
      exact hpres ⟨o, ho, hid⟩
    rw [setOrdersUpdater_absent u c h habs,
      setOrdersUpdater_present u (u :: c) h ⟨u, List.mem_cons_self _ _, rfl⟩,
      List.map_cons, replace_of_absent u c habs]
    simp

/-- Witness of `feedUpdate_idempotent`: a new order delivered twice by the
feed is held once. -/
theorem feedUpdate_idempotent_witness :
    setOrdersUpdater { id := .num 3, orderStatus := some "Pending" }
        (setOrdersUpdater { id := .num 3, orderStatus := some "Pending" }
          [{ id := .num 1, orderStatus := some "Accepted" }])
      = [{ id := .num 3, orderStatus := some "Pending" },
         { id := .num 1, orderStatus := some "Accepted" }] :=
  (feedUpdate_idempotent { id := .num 3, orderStatus := some "Pending" }
    [{ id := .num 1, orderStatus := some "Accepted" }] (by decide)).trans
    (by decide)

/-- C10: terminal removal is absorbing: after one or more feed updates that all
carry the id `i` and a delivered/cancelled status, no record with id `i` is in
the collection, and the collection equals the one left by the first of these
updates. -/
theorem feedUpdate_terminal_absorbing (i : JsId) (us : List Order)
    (c : List Order) (hn : 1 ≤ us.length)
    (hus : ∀ u ∈ us, u.id = i ∧ closedStatus u = true) :
    (∀ o ∈ deliver us c, o.id ≠ i) ∧
    deliver us c = deliver (us.take 1) c := by
  cases us with
  | nil => simp at hn
  | cons u rest =>
    have hu := hus u (List.mem_cons_self _ _)
    have hgone : ∀ o ∈ setOrdersUpdater u c, o.id ≠ i := by
      rw [setOrdersUpdater_closed u c hu.2, hu.1]
      intro o ho
      simpa using (List.mem_filter.mp ho).2
    have hrest : deliver rest (setOrdersUpdater u c) = setOrdersUpdater u c :=
      deliver_closed_of_absent i rest _
        (fun v hv => hus v (List.mem_cons_of_mem _ hv)) hgone
    have hall : deliver (u :: rest) c = setOrdersUpdater u c := hrest
    have hone : deliver ((u :: rest).take 1) c = setOrdersUpdater u c := rfl
    rw [hall, hone]
    exact ⟨hgone, rfl⟩

/-- Witness of `feedUpdate_terminal_absorbing`: order 1 is reported delivered,
then cancelled, then delivered again. -/
theorem feedUpdate_terminal_absorbing_witness :
    (∀ o ∈ deliver
        [{ id := .num 1, orderStatus := some "Delivered" },
         { id := .num 1, orderStatus := some "CANCELLED" },
         { id := .num 1, orderStatus := some "delivered" }]
        [{ id := .num 3, orderStatus := some "Pending" },
         { id := .num 1, orderStatus := some "Accepted" }], o.id ≠ JsId.num 1) ∧
    deliver
        [{ id := .num 1, orderStatus := some "Delivered" },
         { id := .num 1, orderStatus := some "CANCELLED" },
         { id := .num 1, orderStatus := some "delivered" }]
        [{ id := .num 3, orderStatus := some "Pending" },
         { id := .num 1, orderStatus := some "Accepted" }]
      = [{ id := .num 3, orderStatus := some "Pending" }] :=
  ⟨(feedUpdate_terminal_absorbing (JsId.num 1)
      [{ id := .num 1, orderStatus := some "Delivered" },
       { id := .num 1, orderStatus := some "CANCELLED" },
       { id := .num 1, orderStatus := some "delivered" }]
      [{ id := .num 3, orderStatus := some "Pending" },
       { id := .num 1, orderStatus := some "Accepted" }]
      (by decide) (by decide)).1,
   by decide⟩

end Dashboard

/-! ## Case conversion -/

theorem toNat_ofNat_small (n : Nat) (h : n < 55296) : (Char.ofNat n).toNat = n := by
  have hv : n.isValidChar := Or.inl h
  simp [Char.ofNat, hv, Char.ofNatAux, Char.toNat]
  rfl

theorem char_eq_of_toNat_eq (c d : Char) (h : c.toNat = d.toNat) : c = d := by
  rw [← Char.ofNat_toNat c, ← Char.ofNat_toNat d, h]

theorem toNat_toLower (c : Char) :
    c.toLower.toNat
      = if 65 ≤ c.toNat ∧ c.toNat ≤ 90 then c.toNat + 32 else c.toNat := by
  unfold Char.toLower
  by_cases h : c.toNat ≥ 65 ∧ c.toNat ≤ 90
  · simp only [h, and_self, if_true]
    exact toNat_ofNat_small _ (by omega)
  · simp only [h, if_false]

theorem toNat_toUpper (c : Char) :
    c.toUpper.toNat
      = if 97 ≤ c.toNat ∧ c.toNat ≤ 122 then c.toNat - 32 else c.toNat := by
  unfold Char.toUpper
  by_cases h : c.toNat ≥ 97 ∧ c.toNat ≤ 122
  · simp only [h, and_self, if_true]
    exact toNat_ofNat_small _ (by omega)
  · simp only [h, if_false]

theorem toUpper_eq_iff_toLower_eq (c d : Char) :
    c.toUpper = d.toUpper ↔ c.toLower = d.toLower := by
  constructor
  · intro h
    apply char_eq_of_toNat_eq
    have h2 := congrArg Char.toNat h
    rw [toNat_toUpper, toNat_toUpper] at h2
    rw [toNat_toLower, toNat_toLower]
    split_ifs at h2 ⊢ <;> omega
  · intro h
    apply char_eq_of_toNat_eq
    have h2 := congrArg Char.toNat h
    rw [toNat_toLower, toNat_toLower] at h2
    rw [toNat_toUpper, toNat_toUpper]
    split_ifs at h2 ⊢ <;> omega

theorem map_toUpper_eq_iff (l : List Char) :
    ∀ m : List Char,
      l.map Char.toUpper = m.map Char.toUpper ↔
        l.map Char.toLower = m.map Char.toLower := by
  induction l with
  | nil =>
    intro m
    cases m with
    | nil => simp
    | cons d m => simp
  | cons c l ih =>
    intro m
    cases m with
    | nil => simp
    | cons d m =>
      simp only [List.map_cons, List.cons.injEq]
      rw [toUpper_eq_iff_toLower_eq, ih m]

theorem toUpperCase_eq_iff (p q : String) :
    toUpperCase p = toUpperCase q ↔ EqIgnoreCase p q := by
  unfold toUpperCase EqIgnoreCase toLowerCase
  rw [String.ext_iff, String.ext_iff]
  exact map_toUpper_eq_iff p.data q.data

theorem toUpperCase_eq_FAILED (p : String) :
    toUpperCase p = "FAILED" ↔ EqIgnoreCase p "FAILED" := by
  have h : toUpperCase "FAILED" = "FAILED" := by decide
  rw [← toUpperCase_eq_iff, h]

theorem toUpperCase_eq_PAYMENT_FAILED (p : String) :
    toUpperCase p = "PAYMENT_FAILED" ↔ EqIgnoreCase p "PAYMENT_FAILED" := by
  have h : toUpperCase "PAYMENT_FAILED" = "PAYMENT_FAILED" := by decide
  rw [← toUpperCase_eq_iff, h]

theorem toLowerCase_eq_delivered (s : String) :
    toLowerCase s = "delivered" ↔ EqIgnoreCase s "delivered" := by
  have h : toLowerCase "delivered" = "delivered" := by decide
  unfold EqIgnoreCase
  rw [h]

theorem toLowerCase_eq_cancelled (s : String) :
    toLowerCase s = "cancelled" ↔ EqIgnoreCase s "cancelled" := by
  have h : toLowerCase "cancelled" = "cancelled" := by decide
  unfold EqIgnoreCase
  rw [h]

/-! ## Orders shown by the table -/

theorem validOrder_iff (o : Order) :
    OrderTable.validOrder o = true ↔ Displayable o := by
  unfold OrderTable.validOrder Displayable
  cases hp : o.paymentStatus with
  | none => simp
  | some p =>
    cases hs : o.orderStatus with
    | none => simp
    | some st =>
      simp only [Bool.and_eq_true, bne_iff_ne, ne_eq, Bool.not_eq_true',
        List.contains_eq_any_beq, List.any_cons, List.any_nil, Bool.or_false,
        Bool.or_eq_false_iff, beq_eq_false_iff_ne, Option.some.injEq,
        exists_eq_left', ← toUpperCase_eq_FAILED, ← toUpperCase_eq_PAYMENT_FAILED,
        ← toLowerCase_eq_delivered, ← toLowerCase_eq_cancelled]
      constructor
      · rintro ⟨⟨⟨⟨h1, h2, h3⟩, h4⟩, h5⟩, h6⟩
        exact ⟨⟨h1, h2, h3⟩, h4, h5, h6⟩
      · rintro ⟨⟨h1, h2, h3⟩, h4, h5, h6⟩
        exact ⟨⟨⟨⟨h1, h2, h3⟩, h4⟩, h5⟩, h6⟩

theorem validOrder_not_failed (o : Order) (h : OrderTable.validOrder o = true) :
    failedPayment o = false := by
  unfold OrderTable.validOrder at h
  unfold failedPayment
  cases hp : o.paymentStatus with
  | none => rfl
  | some p =>
    cases hs : o.orderStatus with
    | none => simp [hp, hs] at h
    | some st =>
      simp only [hp, hs, Bool.and_eq_true, Bool.not_eq_true'] at h
      exact h.1.1.1.2

/-! ## Failed payments and records without identifier on the dashboard -/

namespace Dashboard

/-- C11, as stated, fails: an update for a new order whose payment failed is
not ignored, it is inserted into the empty collection. -/
theorem feedUpdate_inserts_failed_payment :
    failedPayment { id := .num 5, paymentStatus := some "FAILED",
                    orderStatus := some "Pending" } = true ∧
    setOrdersUpdater { id := .num 5, paymentStatus := some "FAILED",
                       orderStatus := some "Pending" } []
      ≠ [] := by
  decide

/-- C11, amended: the feed updater does not read `paymentStatus`: a
failed-payment update is handled by its `orderStatus` and `id` like any other
(inserted in front when its status is not delivered/cancelled and its id is
absent), and failed-payment records are left out where the collection is
displayed: `validOrders` of the collection after the update contains no
failed-payment record, in particular not the update itself. -/
theorem feedUpdate_failed_payment_hidden (u : Order) (c : List Order)
    (hf : failedPayment u = true) :
    (closedStatus u = false → (∀ o ∈ c, o.id ≠ u.id) →
      setOrdersUpdater u c = u :: c) ∧
    (∀ o ∈ OrderTable.validOrders (some (setOrdersUpdater u c)),
      failedPayment o = false) ∧
    u ∉ OrderTable.validOrders (some (setOrdersUpdater u c)) := by
  refine ⟨setOrdersUpdater_absent u c, ?_, ?_⟩
  · intro o ho
    exact validOrder_not_failed o (List.mem_filter.mp ho).2
  · intro hu
    have h := validOrder_not_failed u (List.mem_filter.mp hu).2
    rw [hf] at h
    exact Bool.noConfusion h

/-- Witness of `feedUpdate_failed_payment_hidden`: a failed-payment order 5
arrives while the paid order 1 is held; it is stored and not displayed. -/
theorem feedUpdate_failed_payment_hidden_witness :
    setOrdersUpdater { id := .num 5, paymentStatus := some "payment_failed",
                       orderStatus := some "Pending" }
        [{ id := .num 1, paymentStatus := some "PAID",
           orderStatus := some "Accepted" }]
      = [{ id := .num 5, paymentStatus := some "payment_failed",
           orderStatus := some "Pending" },
         { id := .num 1, paymentStatus := some "PAID",
           orderStatus := some "Accepted" }] ∧
    OrderTable.validOrders (some (setOrdersUpdater
        { id := .num 5, paymentStatus := some "payment_failed",
          orderStatus := some "Pending" }
        [{ id := .num 1, paymentStatus := some "PAID",
           orderStatus := some "Accepted" }]))
      = [{ id := .num 1, paymentStatus := some "PAID",
           orderStatus := some "Accepted" }] :=
  ⟨(feedUpdate_failed_payment_hidden
      { id := .num 5, paymentStatus := some "payment_failed",
        orderStatus := some "Pending" }
      [{ id := .num 1, paymentStatus := some "PAID",
         orderStatus := some "Accepted" }] (by decide)).1 (by decide) (by decide),
   by decide⟩

/-- C12, as stated, fails: for a record without `id` the handler raises no
error and the record is inserted into the empty collection. -/
theorem subscriptionHandler_accepts_missing_id :
    (¬ ∃ e, subscriptionHandler []
        (Message.record { id := .undefined, orderStatus := some "Pending" })
      = Except.error e) ∧
    subscriptionHandler []
        (Message.record { id := .undefined, orderStatus := some "Pending" })
      = Except.ok [{ id := .undefined, orderStatus := some "Pending" }] := by
  refine ⟨?_, rfl⟩
  rintro ⟨e, he⟩
  exact Except.noConfusion he

/-- C12, amended: for every parsed record, with or without `id`, the handler
raises no error and installs the result of the feed updater, the identifier
being compared by strict equality like any other value; a record whose id is
missing or `null`, whose status is not delivered/cancelled and whose id no
held record shares is inserted in front. The handler raises an error only
for a body that is not JSON text or is the JSON text `null`, and then the
collection is left unchanged. -/
theorem subscriptionHandler_record (u : Order) (c : List Order) :
    subscriptionHandler c (Message.record u) = Except.ok (setOrdersUpdater u c) ∧
    ((u.id = JsId.undefined ∨ u.id = JsId.null) → closedStatus u = false →
      (∀ o ∈ c, o.id ≠ u.id) →
      subscriptionHandler c (Message.record u) = Except.ok (u :: c)) ∧
    subscriptionHandler c Message.malformed = Except.error HandlerError.parseError ∧
    subscriptionHandler c Message.jsonNull = Except.error HandlerError.typeError := by
  refine ⟨rfl, ?_, rfl, rfl⟩
  intro _ hc habs
  show Except.ok (setOrdersUpdater u c) = Except.ok (u :: c)
  rw [setOrdersUpdater_absent u c hc habs]

/-- Witness of `subscriptionHandler_record`: a record whose id is `null`
arrives while order 1 is held. -/
theorem subscriptionHandler_record_witness :
    subscriptionHandler [{ id := .num 1, orderStatus := some "Accepted" }]
        (Message.record { id := .null, orderStatus := some "Pending" })
      = Except.ok [{ id := .null, orderStatus := some "Pending" },
                   { id := .num 1, orderStatus := some "Accepted" }] :=
  (subscriptionHandler_record { id := .null, orderStatus := some "Pending" }
    [{ id := .num 1, orderStatus := some "Accepted" }]).2.1
    (Or.inr rfl) (by decide) (by decide)

/-! ## The derived filter view -/

/-- C13: the list `filtered` is exactly the records of `orders` that satisfy
`matchesSearch`, `matchesPayment` and `matchesStatus` for the normalised
filter values, in the order of `orders`: it is the filter of `orders` by the
conjunction of the three, hence a sublist of `orders` whose members are the
matching records, each as often as in `orders`. It is a function of `orders`
and `filters` alone and returns a new list, so `orders` is as before and no
earlier filter computation enters the result. -/
theorem filtered_spec (orders : List Order) (filters : Filters) :
    filtered orders filters
      = orders.filter (fun o =>
          matchesSearch (toLowerCase (trim filters.search)) o &&
          matchesPayment (toLowerCase filters.payment) o &&
          matchesStatus (toLowerCase filters.status) o) ∧
    (filtered orders filters).Sublist orders ∧
    (∀ o, o ∈ filtered orders filters ↔
      o ∈ orders ∧
      matchesSearch (toLowerCase (trim filters.search)) o = true ∧
      matchesPayment (toLowerCase filters.payment) o = true ∧
      matchesStatus (toLowerCase filters.status) o = true) ∧
    (∀ o,
      matchesSearch (toLowerCase (trim filters.search)) o = true →
      matchesPayment (toLowerCase filters.payment) o = true →
      matchesStatus (toLowerCase filters.status) o = true →
      (filtered orders filters).count o = orders.count o) := by
  refine ⟨rfl, List.filter_sublist orders, ?_, ?_⟩
  · intro o
    unfold filtered
    simp only [List.mem_filter, Bool.and_eq_true]
    tauto
  · intro o h1 h2 h3
    unfold filtered
    rw [List.count_filter]
    simp [h1, h2, h3]

end Dashboard

/-! ## Last message wins -/

namespace Dashboard

theorem filter_id_of_absent (i : JsId) (c : List Order)
    (habs : ∀ o ∈ c, o.id ≠ i) :
    c.filter (fun o => o.id == i) = [] := by
  rw [List.filter_eq_nil_iff]
  intro o ho
  simpa using habs o ho

theorem filter_id_replace (u : Order) (c : List Order) (h : UniqueIds c)
    (hpres : ∃ o ∈ c, o.id = u.id) :
    (c.map (fun o => if o.id == u.id then u else o)).filter
        (fun o => o.id == u.id) = [u] := by
  induction c with
  | nil =>
    obtain ⟨o, ho, _⟩ := hpres
    exact absurd ho (List.not_mem_nil o)
  | cons a t ih =>
    unfold UniqueIds ids at h
    rw [List.map_cons, List.nodup_cons] at h
    by_cases ha : a.id = u.id
    · have habs : ∀ o ∈ t, o.id ≠ u.id := by
        intro o ho hid
        apply h.1
        rw [List.mem_map]
        exact ⟨o, ho, hid.trans ha.symm⟩
      rw [List.map_cons, replace_of_absent u t habs]
      simp only [ha, beq_self_eq_true, if_true]
      rw [List.filter_cons_of_pos (by simp), filter_id_of_absent u.id t habs]
    · have hpres2 : ∃ o ∈ t, o.id = u.id := by
        obtain ⟨o, ho, hid⟩ := hpres
        rcases List.mem_cons.mp ho with rfl | ht
        · exact absurd hid ha
        · exact ⟨o, ht, hid⟩
      rw [List.map_cons]
      have hne : (a.id == u.id) = false := by simpa using ha
      simp only [hne, Bool.false_eq_true, if_false]
      rw [List.filter_cons_of_neg (by simp [ha])]
      exact ih h.2 hpres2

theorem filter_id_setOrdersUpdater (u : Order) (c : List Order)
    (h : UniqueIds c) (hc : closedStatus u = false) :
    (setOrdersUpdater u c).filter (fun o => o.id == u.id) = [u] := by
  by_cases hpres : ∃ o ∈ c, o.id = u.id
  · rw [setOrdersUpdater_present u c hc hpres]
    exact filter_id_replace u c h hpres
  · have habs : ∀ o ∈ c, o.id ≠ u.id := by
      intro o ho hid
      exact hpres ⟨o, ho, hid⟩
    rw [setOrdersUpdater_absent u c hc habs, List.filter_cons_of_pos (by simp),
      filter_id_of_absent u.id c habs]

theorem deliver_cons (u : Order) (us c : List Order) :
    deliver (u :: us) c = deliver us (setOrdersUpdater u c) := rfl

theorem filter_id_deliver (i : JsId) (us : List Order) :
    ∀ (c : List Order) (hne : us ≠ []), UniqueIds c →
      (∀ u ∈ us, u.id = i ∧ closedStatus u = false) →
      (deliver us c).filter (fun o => o.id == i) = [us.getLast hne] := by
  induction us with
  | nil => intro c hne; exact absurd rfl hne
  | cons u rest ih =>
    intro c hne hc hus
    have hu := hus u (List.mem_cons_self _ _)
    by_cases hrest : rest = []
    · subst hrest
      have h := filter_id_setOrdersUpdater u c hc hu.2
      rw [hu.1] at h
      simpa [deliver] using h
    · rw [deliver_cons, List.getLast_cons hrest]
      exact ih (setOrdersUpdater u c) hrest
        (uniqueIds_setOrdersUpdater u c hc)
        (fun v hv => hus v (List.mem_cons_of_mem _ hv))

/-- C14: last message wins. From a collection with distinct ids, after a
non-empty sequence of feed updates that all carry the id `i` and a status that
is not delivered/cancelled, applied in delivery order, the records of the
collection with id `i` are exactly one record, the last update of the
sequence. -/
theorem feedUpdate_last_wins (i : JsId) (us c : List Order) (hne : us ≠ [])
    (hc : UniqueIds c) (hus : ∀ u ∈ us, u.id = i ∧ closedStatus u = false) :
    (deliver us c).filter (fun o => o.id == i) = [us.getLast hne] ∧
    UniqueIds (deliver us c) := by
  refine ⟨filter_id_deliver i us c hne hc hus, ?_⟩
  clear hne hus
  induction us generalizing c with
  | nil => exact hc
  | cons u rest ih =>
    rw [deliver_cons]
    exact ih _ (uniqueIds_setOrdersUpdater u c hc)

/-- Witness of `feedUpdate_last_wins`: order 1 is reported Accepted, then
Preparing, then Completed. -/
theorem feedUpdate_last_wins_witness :
    (deliver
        [{ id := .num 1, orderStatus := some "Accepted" },
         { id := .num 1, orderStatus := some "Preparing" },
         { id := .num 1, orderStatus := some "Completed" }]
        [{ id := .num 3, orderStatus := some "Pending" },
         { id := .num 1, orderStatus := some "Pending" }]).filter
      (fun o => o.id == JsId.num 1)
      = [{ id := .num 1, orderStatus := some "Completed" }] :=
  (feedUpdate_last_wins (JsId.num 1)
    [{ id := .num 1, orderStatus := some "Accepted" },
     { id := .num 1, orderStatus := some "Preparing" },
     { id := .num 1, orderStatus := some "Completed" }]
    [{ id := .num 3, orderStatus := some "Pending" },
     { id := .num 1, orderStatus := some "Pending" }]
    (by decide) (by decide) (by decide)).1

/-! ## Side effects of the feed updater -/

theorem setOrdersUpdaterFx_fst (ui ar : Bool) (u : Order) (c : List Order) :
    (setOrdersUpdaterFx ui ar u c).1 = setOrdersUpdater u c := by
  unfold setOrdersUpdaterFx setOrdersUpdater
  split
  · rfl
  · simp only
    split <;> rfl

theorem setOrdersUpdaterFx_snd_inserted (ui ar : Bool) (u : Order)
    (c : List Order) (hc : closedStatus u = false)
    (habs : ∀ o ∈ c, o.id ≠ u.id) :
    (setOrdersUpdaterFx ui ar u c).2
      = (if ui && ar then [Effect.playSound] else []) ++
          [Effect.toastNewOrder u.customerName] := by
  have hany : c.any (fun o => o.id == u.id) = false := by
    rw [List.any_eq_false]
    intro o ho
    simpa using habs o ho
  simp [setOrdersUpdaterFx, hc, hany]

theorem setOrdersUpdaterFx_snd_other (ui ar : Bool) (u : Order)
    (c : List Order)
    (h : ¬ (closedStatus u = false ∧ ∀ o ∈ c, o.id ≠ u.id)) :
    (setOrdersUpdaterFx ui ar u c).2 = [] := by
  cases hc : closedStatus u with
  | true => simp [setOrdersUpdaterFx, hc]
  | false =>
    have hany : c.any (fun o => o.id == u.id) = true := by
      rw [List.any_eq_true]
      by_contra hno
      apply h
      refine ⟨hc, ?_⟩
      intro o ho hid
      exact hno ⟨o, ho, by simpa using hid⟩
    simp [setOrdersUpdaterFx, hc, hany]

/-- C15: notification only on insertion. The feed updater returns the
collection of the plain updater, and it requests the toast `New order from
...` if and only if the update is inserted (status not delivered/cancelled and
id absent from the collection), the sound if and only if the update is
inserted, the user has interacted and the audio element is set; when the
update replaces a record in place or removes one it requests nothing. -/
theorem feedUpdate_notifies_iff_inserted (userInteracted audioReady : Bool)
    (u : Order) (c : List Order) :
    (setOrdersUpdaterFx userInteracted audioReady u c).1 = setOrdersUpdater u c ∧
    (Effect.toastNewOrder u.customerName
        ∈ (setOrdersUpdaterFx userInteracted audioReady u c).2 ↔
      (closedStatus u = false ∧ ∀ o ∈ c, o.id ≠ u.id)) ∧
    (Effect.playSound ∈ (setOrdersUpdaterFx userInteracted audioReady u c).2 ↔
      (closedStatus u = false ∧ ∀ o ∈ c, o.id ≠ u.id) ∧
        userInteracted = true ∧ audioReady = true) ∧
    (¬ (closedStatus u = false ∧ ∀ o ∈ c, o.id ≠ u.id) →
      (setOrdersUpdaterFx userInteracted audioReady u c).2 = []) := by
  refine ⟨setOrdersUpdaterFx_fst _ _ u c, ?_, ?_,
    setOrdersUpdaterFx_snd_other _ _ u c⟩
  · by_cases h : closedStatus u = false ∧ ∀ o ∈ c, o.id ≠ u.id
    · rw [setOrdersUpdaterFx_snd_inserted _ _ u c h.1 h.2]
      exact ⟨fun _ => h, fun _ => by simp⟩
    · rw [setOrdersUpdaterFx_snd_other _ _ u c h]
      exact ⟨fun hm => absurd hm (List.not_mem_nil _), fun hi => absurd hi h⟩
  · by_cases h : closedStatus u = false ∧ ∀ o ∈ c, o.id ≠ u.id
    · rw [setOrdersUpdaterFx_snd_inserted _ _ u c h.1 h.2]
      constructor
      · intro hm
        refine ⟨h, ?_⟩
        cases userInteracted <;> cases audioReady <;> simp at hm ⊢
      · rintro ⟨_, h1, h2⟩
        simp [h1, h2]
    · rw [setOrdersUpdaterFx_snd_other _ _ u c h]
      exact ⟨fun hm => absurd hm (List.not_mem_nil _), fun hi => absurd hi.1 h⟩

end Dashboard

/-! ## The other live screens -/

/-- C16, as stated, fails: on each of the three screens a feed record whose id
is already held is added next to the held record, so a collection with
distinct ids becomes one with two records of id 1. -/
theorem other_screens_duplicate_ids :
    UniqueIds [({ id := .num 1, customerName := some "Asha" } : Order)] ∧
    ¬ UniqueIds (OrdersPage.setOrdersUpdater
        { id := .num 1, customerName := some "Asha" }
        [{ id := .num 1, customerName := some "Asha" }]) ∧
    ¬ UniqueIds (OrderManagement.setOrdersUpdater
        { id := .num 1, customerName := some "Asha" }
        [{ id := .num 1, customerName := some "Asha" }]) ∧
    ¬ UniqueIds (RestaurantOrders.setOrdersUpdater
        { id := .num 1, customerName := some "Asha" }
        [{ id := .num 1, customerName := some "Asha" }]) := by
  decide

theorem uniqueIds_cons_iff (r : Order) (c : List Order) (h : UniqueIds c) :
    UniqueIds (r :: c) ↔ ∀ o ∈ c, o.id ≠ r.id := by
  unfold UniqueIds ids at *
  rw [List.map_cons, List.nodup_cons, List.mem_map]
  constructor
  · rintro ⟨hnot, _⟩ o ho hid
    exact hnot ⟨o, ho, hid⟩
  · intro habs
    refine ⟨?_, h⟩
    rintro ⟨o, ho, hid⟩
    exact habs o ho hid

theorem uniqueIds_append_singleton_iff (r : Order) (c : List Order)
    (h : UniqueIds c) :
    UniqueIds (c ++ [r]) ↔ ∀ o ∈ c, o.id ≠ r.id := by
  rw [← uniqueIds_cons_iff r c h]
  unfold UniqueIds ids
  rw [List.map_append, List.map_cons, List.map_cons, List.map_nil]
  exact List.Perm.nodup_iff (List.perm_append_singleton _ _)

/-- C16, amended: the feed updaters of the other live screens only add. For
every orders collection with distinct ids held by OrdersPage, OrderManagement
or RestaurantOrders and every feed record, the updater returns the collection
with the record added (in front on OrdersPage and OrderManagement, at the end
on RestaurantOrders), and the result has distinct ids exactly when the id of
the record is not already present in the collection. -/
theorem other_screens_add_only (r : Order) (c : List Order)
    (h : UniqueIds c) :
    OrdersPage.setOrdersUpdater r c = r :: c ∧
    OrderManagement.setOrdersUpdater r c = r :: c ∧
    RestaurantOrders.setOrdersUpdater r c = c ++ [r] ∧
    (UniqueIds (OrdersPage.setOrdersUpdater r c) ↔ ∀ o ∈ c, o.id ≠ r.id) ∧
    (UniqueIds (OrderManagement.setOrdersUpdater r c) ↔ ∀ o ∈ c, o.id ≠ r.id) ∧
    (UniqueIds (RestaurantOrders.setOrdersUpdater r c) ↔
      ∀ o ∈ c, o.id ≠ r.id) :=
  ⟨rfl, rfl, rfl, uniqueIds_cons_iff r c h, uniqueIds_cons_iff r c h,
    uniqueIds_append_singleton_iff r c h⟩

/-- Witness of `other_screens_add_only`: the new order 2 arrives while order 1
is held. -/
theorem other_screens_add_only_witness :
    UniqueIds [({ id := .num 1, customerName := some "Asha" } : Order)] ∧
    UniqueIds (OrdersPage.setOrdersUpdater
        { id := .num 2, customerName := some "Ravi" }
        [{ id := .num 1, customerName := some "Asha" }]) ∧
    UniqueIds (RestaurantOrders.setOrdersUpdater
        { id := .num 2, customerName := some "Ravi" }
        [{ id := .num 1, customerName := some "Asha" }]) :=
  ⟨by decide,
   (other_screens_add_only { id := .num 2, customerName := some "Ravi" }
      [{ id := .num 1, customerName := some "Asha" }] (by decide)).2.2.2.1.mpr
      (by decide),
   (other_screens_add_only { id := .num 2, customerName := some "Ravi" }
      [{ id := .num 1, customerName := some "Asha" }] (by decide)).2.2.2.2.2.mpr
      (by decide)⟩

/-! ## The order history lists -/

namespace OrderHistory

/-- C17, evaluated on the code: a delivered update whose payment failed is
put into `deliveredOrders` by the feed handler, although the delivered filter
of `fetchOrders` rejects the same record. -/
theorem feed_admits_failed_payment :
    (run [Event.message { id := .num 7, paymentStatus := some "FAILED",
                          orderStatus := some "Delivered" }]).deliveredOrders
      = [{ id := .num 7, paymentStatus := some "FAILED",
           orderStatus := some "Delivered" }] ∧
    failedPayment { id := .num 7, paymentStatus := some "FAILED",
                    orderStatus := some "Delivered" } = true ∧
    (run [Event.fetched (Dashboard.FetchOutcome.json
        ⟨some [{ id := .num 7, paymentStatus := some "FAILED",
                 orderStatus := some "Delivered" }]⟩)]).deliveredOrders
      = [] := by
  decide

theorem addOrUpdate_absent (u : Order) (c : List Order)
    (habs : ∀ o ∈ c, o.id ≠ u.id) : addOrUpdate u c = u :: c := by
  have hany : c.any (fun o => o.id == u.id) = false := by
    rw [List.any_eq_false]
    intro o ho
    simpa using habs o ho
  simp [addOrUpdate, hany]

theorem addOrUpdate_present (u : Order) (c : List Order)
    (hpres : ∃ o ∈ c, o.id = u.id) :
    addOrUpdate u c = c.map (fun o => if o.id == u.id then u else o) := by
  have hany : c.any (fun o => o.id == u.id) = true := by
    rw [List.any_eq_true]
    obtain ⟨o, ho, hid⟩ := hpres
    exact ⟨o, ho, by simpa using hid⟩
  simp [addOrUpdate, hany]

theorem isDelivered_not_cancelled (u : Order) (h : isDelivered u = true) :
    isCancelled u = false := by
  unfold isDelivered at h
  unfold isCancelled
  cases hs : u.orderStatus with
  | none => rfl
  | some s =>
    simp only [hs, Bool.and_eq_true, beq_iff_eq] at h
    simp [h.2]

theorem isCancelled_not_delivered (u : Order) (h : isCancelled u = true) :
    isDelivered u = false := by
  cases hd : isDelivered u with
  | false => rfl
  | true =>
    rw [isDelivered_not_cancelled u hd] at h
    exact Bool.noConfusion h

theorem handleUpdate_delivered (lists : Lists) (u : Order)
    (h : isDelivered u = true) :
    handleUpdate lists u
      = { deliveredOrders := addOrUpdate u lists.deliveredOrders
          cancelledOrders := removeById u lists.cancelledOrders } := by
  simp [handleUpdate, h, isDelivered_not_cancelled u h]

theorem handleUpdate_cancelled (lists : Lists) (u : Order)
    (h : isCancelled u = true) :
    handleUpdate lists u
      = { deliveredOrders := removeById u lists.deliveredOrders
          cancelledOrders := addOrUpdate u lists.cancelledOrders } := by
  simp [handleUpdate, h, isCancelled_not_delivered u h]

theorem handleUpdate_other (lists : Lists) (u : Order)
    (hd : isDelivered u = false) (hc : isCancelled u = false) :
    handleUpdate lists u = lists := by
  simp [handleUpdate, hd, hc]

theorem movedInto_removeById_addOrUpdate (u : Order) (src dst : List Order) :
    MovedInto u src dst (removeById u src) (addOrUpdate u dst) := by
  refine ⟨?_, List.filter_sublist src, ?_, ?_, addOrUpdate_absent u dst, ?_⟩
  · intro o ho
    simpa [removeById] using (List.mem_filter.mp ho).2
  · intro o ho
    unfold removeById
    rw [List.count_filter]
    simpa using ho
  · by_cases hpres : ∃ o ∈ dst, o.id = u.id
    · rw [addOrUpdate_present u dst hpres, List.mem_map]
      obtain ⟨o, ho, hid⟩ := hpres
      exact ⟨o, ho, by simp [hid]⟩
    · have habs : ∀ o ∈ dst, o.id ≠ u.id := by
        intro o ho hid
        exact hpres ⟨o, ho, hid⟩
      rw [addOrUpdate_absent u dst habs]
      exact List.mem_cons_self _ _
  · intro hpres
    rw [addOrUpdate_present u dst hpres]
    refine ⟨List.length_map _ _, ?_⟩
    intro i o hio
    rw [List.get?_eq_getElem?] at hio
    rw [List.get?_eq_getElem?, List.getElem?_map, hio]
    by_cases hid : o.id = u.id
    · simp [hid]
    · simp [hid]

/-- C18: the feed handler moves an order between the lists. For a delivered
update `u`, afterwards `cancelledOrders` has no record of id `u.id` (its other
records are kept) and `deliveredOrders` holds `u`, in front when the id was
absent from it and in place of the old record otherwise; for a cancelled
update the same holds with the two lists exchanged. -/
theorem handleUpdate_moves (lists : Lists) (u : Order) :
    (isDelivered u = true →
      MovedInto u lists.cancelledOrders lists.deliveredOrders
        (handleUpdate lists u).cancelledOrders
        (handleUpdate lists u).deliveredOrders) ∧
    (isCancelled u = true →
      MovedInto u lists.deliveredOrders lists.cancelledOrders
        (handleUpdate lists u).deliveredOrders
        (handleUpdate lists u).cancelledOrders) := by
  constructor
  · intro h
    rw [handleUpdate_delivered lists u h]
    exact movedInto_removeById_addOrUpdate u _ _
  · intro h
    rw [handleUpdate_cancelled lists u h]
    exact movedInto_removeById_addOrUpdate u _ _

/-- Witness of `handleUpdate_moves`: order 2, held as cancelled, is reported
delivered while order 1 is in the delivered list. -/
theorem handleUpdate_moves_witness :
    handleUpdate
        { deliveredOrders := [{ id := .num 1, orderStatus := some "Delivered" }]
          cancelledOrders := [{ id := .num 2, orderStatus := some "Cancelled" }] }
        { id := .num 2, orderStatus := some "DELIVERED" }
      = { deliveredOrders := [{ id := .num 2, orderStatus := some "DELIVERED" },
                              { id := .num 1, orderStatus := some "Delivered" }]
          cancelledOrders := [] } ∧
    MovedInto { id := .num 2, orderStatus := some "DELIVERED" }
      [{ id := .num 2, orderStatus := some "Cancelled" }]
      [{ id := .num 1, orderStatus := some "Delivered" }]
      (handleUpdate
        { deliveredOrders := [{ id := .num 1, orderStatus := some "Delivered" }]
          cancelledOrders := [{ id := .num 2, orderStatus := some "Cancelled" }] }
        { id := .num 2, orderStatus := some "DELIVERED" }).cancelledOrders
      (handleUpdate
        { deliveredOrders := [{ id := .num 1, orderStatus := some "Delivered" }]
          cancelledOrders := [{ id := .num 2, orderStatus := some "Cancelled" }] }
        { id := .num 2, orderStatus := some "DELIVERED" }).deliveredOrders :=
  ⟨by decide,
   (handleUpdate_moves
      { deliveredOrders := [{ id := .num 1, orderStatus := some "Delivered" }]
        cancelledOrders := [{ id := .num 2, orderStatus := some "Cancelled" }] }
      { id := .num 2, orderStatus := some "DELIVERED" }).1 (by decide)⟩

end OrderHistory

/-! ## The table filter and the phone format -/

/-- C19: `validOrders` is exactly the sublist, in input order, of the orders
with a non-empty payment status other than `FAILED` and `PAYMENT_FAILED` and a
non-empty order status other than `delivered` and `cancelled`, ignoring case:
it is a sublist of the input, each of its records is such an order, and every
such order occurs in it as often as in the input; for a value that is not an
array it is the empty list. -/
theorem validOrders_spec (l : List Order) :
    (OrderTable.validOrders (some l)).Sublist l ∧
    (∀ o ∈ OrderTable.validOrders (some l), Displayable o) ∧
    (∀ o, Displayable o → (OrderTable.validOrders (some l)).count o = l.count o) ∧
    OrderTable.validOrders none = [] := by
  refine ⟨List.filter_sublist l, ?_, ?_, rfl⟩
  · intro o ho
    exact (validOrder_iff o).mp (List.mem_filter.mp ho).2
  · intro o ho
    unfold OrderTable.validOrders
    rw [List.count_filter]
    exact (validOrder_iff o).mpr ho

/-- C20, evaluated on the code: for the ten-digit number 9123456789 the
result is `+91-23456789`, eight digits after the dash, not `+91-9123456789`. -/
theorem formatPhone_drops_leading_91 :
    OrderDetailsModal.formatPhone (some "9123456789") = "+91-23456789" ∧
    OrderDetailsModal.formatPhone (some "9123456789") ≠ "+91-9123456789" := by
  decide

/-! ## The live toggle and the browser store -/

theorem getItem_setItem (storage : Storage) (key value : String) :
    (storage.setItem key value).getItem key = some value := by
  simp [Storage.setItem, Storage.getItem, List.lookup]

namespace Dashboard

/-- C21: the live switch persists across reloads. After the toggle handler has
stored the new state under `liveOrdersEnabled`, the initial `isLive` computed
from the store is that new state, which is the negation of the old one; so for
every boolean `b` the value read back after storing `b` is `b`. When the key
was never written the initial `isLive` is false. -/
theorem liveToggle_persists (isLive b : Bool) (storage : Storage) :
    initialIsLive (toggleLive isLive storage).2 = (toggleLive isLive storage).1 ∧
    (toggleLive isLive storage).1 = !isLive ∧
    initialIsLive (toggleLive (!b) storage).2 = b ∧
    (storage.getItem "liveOrdersEnabled" = none → initialIsLive storage = false) ∧
    initialIsLive [] = false := by
  have key : ∀ (x : Bool) (st : Storage),
      initialIsLive (toggleLive x st).2 = !x := by
    intro x st
    unfold initialIsLive toggleLive
    simp only [getItem_setItem]
    cases x <;> decide
  refine ⟨key isLive storage, rfl, ?_, ?_, rfl⟩
  · rw [key]
    cases b <;> rfl
  · intro h
    unfold initialIsLive
    rw [h]
    rfl

/-- Witness of `liveToggle_persists`: live updates are switched on in a
browser whose store holds another key only, and read back after a reload. -/
theorem liveToggle_persists_witness :
    initialIsLive [("theme", "dark")] = false ∧
    initialIsLive (toggleLive false [("theme", "dark")]).2 = true :=
  ⟨(liveToggle_persists false true [("theme", "dark")]).2.2.2.1 (by decide),
   by decide⟩

end Dashboard

/-! ## The date range of the payments screen -/

namespace PaymentsFinance

/-- C22, evaluated on the code: in a browser on Indian time (UTC+5:30), with
the start day and the end day both set to day 20000, a transaction placed at
02:00 local time on that day lies within the whole-day range of the claim, and
`matchesDate` is false, because the start bound is midnight UTC, 05:30 local
time. -/
theorem matchesDate_misses_start_day :
    matchesDate 19800000 (some 20000) (some 20000)
        (some (20000 * 86400000 + 7200000 - 19800000)) = false ∧
    InWholeDays 19800000 (some 20000) (some 20000)
        (20000 * 86400000 + 7200000 - 19800000) := by
  refine ⟨by decide, ?_, ?_⟩
  · intro d hd
    cases hd
    decide
  · intro d hd
    cases hd
    decide

theorem matchesDate_utc (startDate endDate : Option Int) (t : Int) :
    matchesDate 0 startDate endDate (some t) = true ↔
      InWholeDays 0 startDate endDate t := by
  unfold matchesDate InWholeDays localStartOfDay localEndOfDay dateOnly
  cases startDate <;> cases endDate <;> simp

end PaymentsFinance

/-! ## The payment filter of the restaurant orders screen -/

theorem toLowerCase_eq_empty (s : String) (h : toLowerCase s = "") : s = "" := by
  unfold toLowerCase at h
  rw [String.ext_iff] at h
  rw [String.ext_iff]
  simpa using h

namespace RestaurantOrders

/-- C23: `applyFilter`. For the empty type the whole list is installed; for a
non-empty type the installed list is a sublist of the input (input order, the
input itself unchanged), each of its orders has a payment mode equal to the
type ignoring case, and every order with such a payment mode occurs in it as
often as in the input. -/
theorem applyFilter_spec (data : List Order) (type : String) :
    (type = "" → applyFilter data type = data) ∧
    (type ≠ "" →
      (applyFilter data type).Sublist data ∧
      (∀ o ∈ applyFilter data type,
        ∃ m, o.paymentMode = some m ∧ EqIgnoreCase m type) ∧
      (∀ o : Order, (∃ m, o.paymentMode = some m ∧ EqIgnoreCase m type) →
        (applyFilter data type).count o = data.count o)) := by
  constructor
  · intro h
    simp [applyFilter, h]
  · intro h
    have hb : (type == "") = false := by simpa using h
    unfold applyFilter
    simp only [hb, Bool.false_eq_true, if_false]
    refine ⟨List.filter_sublist data, ?_, ?_⟩
    · intro o ho
      have hp := (List.mem_filter.mp ho).2
      cases hm : o.paymentMode with
      | none => simp [hm] at hp
      | some m =>
        simp only [hm, Bool.and_eq_true, beq_iff_eq] at hp
        exact ⟨m, rfl, hp.2⟩
    · rintro o ⟨m, hm, heq⟩
      rw [List.count_filter]
      have hne : m ≠ "" := by
        intro hm0
        apply h
        apply toLowerCase_eq_empty
        rw [← heq, hm0]
        rfl
      unfold EqIgnoreCase at heq
      simp [hm, hne, heq]

/-- Witness of `applyFilter_spec`: the filter `upi` on a UPI and a cash
order. -/
theorem applyFilter_spec_witness :
    applyFilter [{ id := .num 1, paymentMode := some "UPI" },
                 { id := .num 2, paymentMode := some "Cash" }] ""
      = [{ id := .num 1, paymentMode := some "UPI" },
         { id := .num 2, paymentMode := some "Cash" }] ∧
    (applyFilter [{ id := .num 1, paymentMode := some "UPI" },
                  { id := .num 2, paymentMode := some "Cash" }] "upi").Sublist
      [{ id := .num 1, paymentMode := some "UPI" },
       { id := .num 2, paymentMode := some "Cash" }] :=
  ⟨(applyFilter_spec [{ id := .num 1, paymentMode := some "UPI" },
      { id := .num 2, paymentMode := some "Cash" }] "").1 rfl,
   ((applyFilter_spec [{ id := .num 1, paymentMode := some "UPI" },
      { id := .num 2, paymentMode := some "Cash" }] "upi").2 (by decide)).1⟩

end RestaurantOrders

/-! ## No active filter -/

namespace Dashboard

theorem filtered_all (orders : List Order) (filters : Filters)
    (hs : trim filters.search = "") (hp : filters.payment = "All")
    (hst : filters.status = "All") : filtered orders filters = orders := by
  have h1 : toLowerCase "" = "" := by decide
  have h2 : toLowerCase "All" = "all" := by decide
  unfold filtered
  rw [hs, hp, hst, h1, h2, List.filter_eq_self]
  intro o _
  simp [matchesSearch, matchesPayment, matchesStatus]

/-- C24: no active filter means nothing is hidden. For every filters value on
which `isFiltered` is false, the list `filtered` is the whole orders
collection; the value installed by `clear` is such a value. -/
theorem filtered_of_not_isFiltered (orders : List Order) (filters : Filters) :
    (OrderFilters.isFiltered filters = false → filtered orders filters = orders) ∧
    OrderFilters.isFiltered OrderFilters.clear = false ∧
    filtered orders OrderFilters.clear = orders := by
  refine ⟨?_, by decide, filtered_all orders _ (by decide) rfl rfl⟩
  intro h
  unfold OrderFilters.isFiltered at h
  simp only [Bool.or_eq_false_iff, bne_eq_false_iff_eq] at h
  exact filtered_all orders filters h.1.1 h.1.2 h.2

/-- Witness of `filtered_of_not_isFiltered`: a search box holding blanks
only, with both selectors on `All`. -/
theorem filtered_of_not_isFiltered_witness :
    filtered [{ id := .num 1, customerName := some "Asha",
                orderStatus := some "Pending" },
              { id := .num 2, orderStatus := some "Preparing" }]
        { search := "  ", payment := "All", status := "All" }
      = [{ id := .num 1, customerName := some "Asha",
           orderStatus := some "Pending" },
         { id := .num 2, orderStatus := some "Preparing" }] :=
  (filtered_of_not_isFiltered
    [{ id := .num 1, customerName := some "Asha", orderStatus := some "Pending" },
     { id := .num 2, orderStatus := some "Preparing" }]
    { search := "  ", payment := "All", status := "All" }).1 (by decide)

end Dashboard

/-! ## Consistency of the order history lists -/

namespace OrderHistory

theorem mem_addOrUpdate (u : Order) (c : List Order) (o : Order)
    (ho : o ∈ addOrUpdate u c) : o = u ∨ (o ∈ c ∧ o.id ≠ u.id) := by
  by_cases hpres : ∃ x ∈ c, x.id = u.id
  · rw [addOrUpdate_present u c hpres, List.mem_map] at ho
    obtain ⟨x, hx, hxo⟩ := ho
    by_cases hid : x.id = u.id
    · left
      simpa [hid] using hxo.symm
    · right
      have hox : x = o := by simpa [hid] using hxo
      rw [← hox]
      exact ⟨hx, hid⟩
  · have habs : ∀ x ∈ c, x.id ≠ u.id := by
      intro x hx hid
      exact hpres ⟨x, hx, hid⟩
    rw [addOrUpdate_absent u c habs] at ho
    rcases List.mem_cons.mp ho with h | h
    · exact Or.inl h
    · exact Or.inr ⟨h, habs o h⟩

theorem mem_removeById (u : Order) (c : List Order) (o : Order)
    (ho : o ∈ removeById u c) : o ∈ c ∧ o.id ≠ u.id := by
  unfold removeById at ho
  have h := List.mem_filter.mp ho
  exact ⟨h.1, by simpa using h.2⟩

theorem consistent_handleUpdate (lists : Lists) (u : Order)
    (h : Consistent lists) : Consistent (handleUpdate lists u) := by
  obtain ⟨hdis, hdel, hcan⟩ := h
  cases hd : isDelivered u with
  | true =>
    rw [handleUpdate_delivered lists u hd]
    refine ⟨?_, ?_, ?_⟩
    · intro o ho o2 ho2
      have h2 := mem_removeById u _ o2 ho2
      rcases mem_addOrUpdate u _ o ho with h1 | h1
      · rw [h1]
        exact fun heq => h2.2 heq.symm
      · exact hdis o h1.1 o2 h2.1
    · intro o ho
      rcases mem_addOrUpdate u _ o ho with h1 | h1
      · rw [h1]
        exact hd
      · exact hdel o h1.1
    · intro o ho
      exact hcan o (mem_removeById u _ o ho).1
  | false =>
    cases hc : isCancelled u with
    | true =>
      rw [handleUpdate_cancelled lists u hc]
      refine ⟨?_, ?_, ?_⟩
      · intro o ho o2 ho2
        have h1 := mem_removeById u _ o ho
        rcases mem_addOrUpdate u _ o2 ho2 with h2 | h2
        · rw [h2]
          exact h1.2
        · exact hdis o h1.1 o2 h2.1
      · intro o ho
        exact hdel o (mem_removeById u _ o ho).1
      · intro o ho
        rcases mem_addOrUpdate u _ o ho with h1 | h1
        · rw [h1]
          exact hc
        · exact hcan o h1.1
    | false =>
      rw [handleUpdate_other lists u hd hc]
      exact ⟨hdis, hdel, hcan⟩

/-- C25: the two lists stay disjoint and status-consistent under feed updates.
If no id occurs in both lists, every record of `deliveredOrders` has the status
delivered and every record of `cancelledOrders` the status cancelled, the same
holds after the handler has processed any update; and an update whose status
is neither delivered nor cancelled leaves both lists unchanged. -/
theorem handleUpdate_keeps_consistent (lists : Lists) (u : Order) :
    (Consistent lists → Consistent (handleUpdate lists u)) ∧
    (isDelivered u = false → isCancelled u = false →
      handleUpdate lists u = lists) :=
  ⟨consistent_handleUpdate lists u, handleUpdate_other lists u⟩

/-- Witness of `handleUpdate_keeps_consistent`: order 1, held as delivered, is
reported cancelled while order 2 is held as cancelled. -/
theorem handleUpdate_keeps_consistent_witness :
    Consistent
      { deliveredOrders := [{ id := .num 1, orderStatus := some "Delivered" }]
        cancelledOrders := [{ id := .num 2, orderStatus := some "Cancelled" }] } ∧
    Consistent (handleUpdate
      { deliveredOrders := [{ id := .num 1, orderStatus := some "Delivered" }]
        cancelledOrders := [{ id := .num 2, orderStatus := some "Cancelled" }] }
      { id := .num 1, orderStatus := some "cancelled" }) :=
  ⟨by unfold Consistent; decide,
   (handleUpdate_keeps_consistent
      { deliveredOrders := [{ id := .num 1, orderStatus := some "Delivered" }]
        cancelledOrders := [{ id := .num 2, orderStatus := some "Cancelled" }] }
      { id := .num 1, orderStatus := some "cancelled" }).1
      (by unfold Consistent; decide)⟩

end OrderHistory

/-! ## Date groups of the order history -/

namespace OrderHistory

theorem pushToGroup_sizes (k : String) (o : Order)
    (g : List (String × List Order)) :
    ((pushToGroup k o g).map (fun e => e.2.length)).sum
      = (g.map (fun e => e.2.length)).sum + 1 := by
  induction g with
  | nil => simp [pushToGroup]
  | cons e rest ih =>
    obtain ⟨k2, os⟩ := e
    unfold pushToGroup
    by_cases hk : (k2 == k) = true
    · simp only [hk, if_true, List.map_cons, List.sum_cons, List.length_append,
        List.length_singleton]
      omega
    · simp only [hk, Bool.false_eq_true, if_false, List.map_cons, List.sum_cons, ih]
      omega

theorem pushToGroup_counts (x : Order) (k : String) (o : Order)
    (g : List (String × List Order)) :
    ((pushToGroup k o g).map (fun e => e.2.count x)).sum
      = (g.map (fun e => e.2.count x)).sum + [o].count x := by
  induction g with
  | nil => simp [pushToGroup]
  | cons e rest ih =>
    obtain ⟨k2, os⟩ := e
    unfold pushToGroup
    by_cases hk : (k2 == k) = true
    · simp only [hk, if_true, List.map_cons, List.sum_cons, List.count_append]
      omega
    · simp only [hk, Bool.false_eq_true, if_false, List.map_cons, List.sum_cons, ih]
      omega

theorem mem_keys_pushToGroup (k2 k : String) (o : Order)
    (g : List (String × List Order)) :
    k2 ∈ (pushToGroup k o g).map Prod.fst ↔ k2 = k ∨ k2 ∈ g.map Prod.fst := by
  induction g with
  | nil => simp [pushToGroup]
  | cons e rest ih =>
    obtain ⟨k3, os⟩ := e
    unfold pushToGroup
    by_cases hk : (k3 == k) = true
    · have hk3 : k3 = k := by simpa using hk
      simp only [hk, if_true, List.map_cons, List.mem_cons]
      constructor
      · intro h; exact Or.inr h
      · rintro (h | h)
        · exact Or.inl (h.trans hk3.symm)
        · exact h
    · simp only [hk, Bool.false_eq_true, if_false, List.map_cons, List.mem_cons, ih]
      tauto

theorem pushToGroup_keys_nodup (k : String) (o : Order)
    (g : List (String × List Order)) (h : (g.map Prod.fst).Nodup) :
    ((pushToGroup k o g).map Prod.fst).Nodup := by
  induction g with
  | nil => simp [pushToGroup]
  | cons e rest ih =>
    obtain ⟨k3, os⟩ := e
    rw [List.map_cons, List.nodup_cons] at h
    unfold pushToGroup
    by_cases hk : (k3 == k) = true
    · simp only [hk, if_true, List.map_cons, List.nodup_cons]
      exact h
    · simp only [hk, Bool.false_eq_true, if_false, List.map_cons, List.nodup_cons]
      refine ⟨?_, ih h.2⟩
      rw [mem_keys_pushToGroup]
      rintro (h3 | h3)
      · exact hk (by simpa using h3)
      · exact h.1 h3

theorem mem_pushToGroup (k : String) (o : Order)
    (g : List (String × List Order)) (e : String × List Order)
    (he : e ∈ pushToGroup k o g) (x : Order) (hx : x ∈ e.2) :
    (x = o ∧ e.1 = k) ∨ ∃ e0 ∈ g, e0.1 = e.1 ∧ x ∈ e0.2 := by
  induction g with
  | nil =>
    simp only [pushToGroup, List.mem_singleton] at he
    subst he
    left
    exact ⟨by simpa using hx, rfl⟩
  | cons e1 rest ih =>
    obtain ⟨k3, os⟩ := e1
    unfold pushToGroup at he
    by_cases hk : (k3 == k) = true
    · have hk3 : k3 = k := by simpa using hk
      simp only [hk, if_true, List.mem_cons] at he
      rcases he with he | he
      · subst he
        rcases List.mem_append.mp hx with h | h
        · exact Or.inr ⟨(k3, os), List.mem_cons_self _ _, rfl, h⟩
        · exact Or.inl ⟨by simpa using h, hk3⟩
      · exact Or.inr ⟨e, List.mem_cons_of_mem _ he, rfl, hx⟩
    · simp only [hk, Bool.false_eq_true, if_false, List.mem_cons] at he
      rcases he with he | he
      · subst he
        exact Or.inr ⟨(k3, os), List.mem_cons_self _ _, rfl, hx⟩
      · rcases ih he with h | ⟨e0, he0, h1, h2⟩
        · exact Or.inl h
        · exact Or.inr ⟨e0, List.mem_cons_of_mem _ he0, h1, h2⟩

theorem addOrder_undated (dk : String → String)
    (acc : List (String × List Order)) (o : Order)
    (h : truthy o.orderTime = false) : addOrder dk acc o = acc := by
  unfold addOrder
  cases ht : o.orderTime with
  | none => rfl
  | some t =>
    have h2 : (t == "") = true := by simpa [truthy, ht] using h
    simp [h2]

theorem addOrder_dated (dk : String → String)
    (acc : List (String × List Order)) (o : Order)
    (h : truthy o.orderTime = true) :
    ∃ t, o.orderTime = some t ∧ t ≠ "" ∧
      addOrder dk acc o = pushToGroup (dk t) o acc := by
  unfold addOrder
  cases ht : o.orderTime with
  | none => simp [truthy, ht] at h
  | some t =>
    have h2 : t ≠ "" := by simpa [truthy, ht] using h
    refine ⟨t, rfl, h2, ?_⟩
    simp [h2]

theorem foldl_addOrder_sizes (dk : String → String) (fo : List Order) :
    ∀ acc : List (String × List Order),
      ((fo.foldl (addOrder dk) acc).map (fun e => e.2.length)).sum
        = (acc.map (fun e => e.2.length)).sum
          + (fo.filter (fun o => truthy o.orderTime)).length := by
  induction fo with
  | nil => intro acc; simp
  | cons o rest ih =>
    intro acc
    rw [List.foldl_cons, ih]
    cases h : truthy o.orderTime with
    | false =>
      rw [addOrder_undated dk acc o h, List.filter_cons_of_neg (by simp [h])]
    | true =>
      obtain ⟨t, _, _, hpush⟩ := addOrder_dated dk acc o h
      rw [hpush, pushToGroup_sizes, List.filter_cons_of_pos (by simp [h]),
        List.length_cons]
      omega

theorem foldl_addOrder_counts (dk : String → String) (x : Order)
    (fo : List Order) :
    ∀ acc : List (String × List Order),
      ((fo.foldl (addOrder dk) acc).map (fun e => e.2.count x)).sum
        = (acc.map (fun e => e.2.count x)).sum
          + (fo.filter (fun o => truthy o.orderTime)).count x := by
  induction fo with
  | nil => intro acc; simp
  | cons o rest ih =>
    intro acc
    rw [List.foldl_cons, ih]
    cases h : truthy o.orderTime with
    | false =>
      rw [addOrder_undated dk acc o h, List.filter_cons_of_neg (by simp [h])]
    | true =>
      obtain ⟨t, _, _, hpush⟩ := addOrder_dated dk acc o h
      rw [hpush, pushToGroup_counts, List.filter_cons_of_pos (by simp [h])]
      simp only [List.count_cons, List.count_nil]
      omega

theorem foldl_addOrder_keys_nodup (dk : String → String) (fo : List Order) :
    ∀ acc : List (String × List Order), (acc.map Prod.fst).Nodup →
      ((fo.foldl (addOrder dk) acc).map Prod.fst).Nodup := by
  induction fo with
  | nil => intro acc h; exact h
  | cons o rest ih =>
    intro acc h
    rw [List.foldl_cons]
    apply ih
    cases ho : truthy o.orderTime with
    | false => rw [addOrder_undated dk acc o ho]; exact h
    | true =>
      obtain ⟨t, _, _, hpush⟩ := addOrder_dated dk acc o ho
      rw [hpush]
      exact pushToGroup_keys_nodup _ o acc h

theorem foldl_addOrder_mem (dk : String → String) (fo : List Order) :
    ∀ acc : List (String × List Order),
      (∀ e ∈ acc, ∀ x ∈ e.2, ∃ t, x.orderTime = some t ∧ t ≠ "" ∧ dk t = e.1) →
      ∀ e ∈ fo.foldl (addOrder dk) acc, ∀ x ∈ e.2,
        ∃ t, x.orderTime = some t ∧ t ≠ "" ∧ dk t = e.1 := by
  induction fo with
  | nil => intro acc h; exact h
  | cons o rest ih =>
    intro acc h
    rw [List.foldl_cons]
    apply ih
    cases ho : truthy o.orderTime with
    | false => rw [addOrder_undated dk acc o ho]; exact h
    | true =>
      obtain ⟨t, ht, hne, hpush⟩ := addOrder_dated dk acc o ho
      rw [hpush]
      intro e he x hx
      rcases mem_pushToGroup (dk t) o acc e he x hx with ⟨hxo, hk⟩ | ⟨e0, he0, h1, h2⟩
      · rw [hxo]
        exact ⟨t, ht, hne, hk.symm⟩
      · rw [← h1]
        exact h e0 he0 x h2

theorem groupedOrders_perm (dk : String → String) (fo : List Order) :
    (groupedOrders dk fo).Perm (groups dk fo) :=
  List.perm_insertionSort _ _

/-- C26, as stated, fails: a delivered order without `orderTime` passes the
date filter `today`, is counted in `filteredOrders.length` and summed into
`totalRevenue`, and appears in no date group. -/
theorem groupedOrders_omits_undated :
    filteredOrders (fun _ _ => false) "delivered"
        { deliveredOrders := [{ id := .num 4, totalPrice := some 250,
                                orderStatus := some "Delivered" }]
          cancelledOrders := [] } "" "today"
      = [{ id := .num 4, totalPrice := some 250,
           orderStatus := some "Delivered" }] ∧
    totalRevenue [{ id := .num 4, totalPrice := some 250,
                    orderStatus := some "Delivered" }] = 250 ∧
    groupedOrders (fun t => t)
        [{ id := .num 4, totalPrice := some 250,
           orderStatus := some "Delivered" }] = [] ∧
    ((groupedOrders (fun t => t)
        [{ id := .num 4, totalPrice := some 250,
           orderStatus := some "Delivered" }]).map (fun e => e.2.length)).sum
      ≠ [({ id := .num 4, totalPrice := some 250,
            orderStatus := some "Delivered" } : Order)].length := by
  decide

/-- C26, amended: every order of `filteredOrders` that has an `orderTime`
appears in exactly one date group of `groupedOrders`: the groups have distinct
keys, every member of a group has an `orderTime` whose date key is the key of
the group, every order with an `orderTime` occurs in the groups as often as in
`filteredOrders`, and the group sizes add up to the number of orders of
`filteredOrders` that have an `orderTime`. -/
theorem groupedOrders_partition (dateKey : String → String)
    (fo : List Order) :
    ((groupedOrders dateKey fo).map Prod.fst).Nodup ∧
    (∀ e ∈ groupedOrders dateKey fo, ∀ x ∈ e.2,
      ∃ t, x.orderTime = some t ∧ t ≠ "" ∧ dateKey t = e.1) ∧
    (∀ x : Order, truthy x.orderTime = true →
      ((groupedOrders dateKey fo).map (fun e => e.2.count x)).sum = fo.count x) ∧
    ((groupedOrders dateKey fo).map (fun e => e.2.length)).sum
      = (fo.filter (fun o => truthy o.orderTime)).length := by
  have hperm := groupedOrders_perm dateKey fo
  refine ⟨?_, ?_, ?_, ?_⟩
  · rw [(hperm.map Prod.fst).nodup_iff]
    exact foldl_addOrder_keys_nodup dateKey fo [] List.nodup_nil
  · intro e he
    have he2 : e ∈ groups dateKey fo := hperm.mem_iff.mp he
    exact foldl_addOrder_mem dateKey fo []
      (fun e0 h0 => absurd h0 (List.not_mem_nil e0)) e he2
  · intro x hx
    rw [(hperm.map (fun e => e.2.count x)).sum_eq]
    unfold groups
    rw [foldl_addOrder_counts, List.count_filter (by simpa using hx)]
    simp
  · rw [(hperm.map (fun e => e.2.length)).sum_eq]
    unfold groups
    rw [foldl_addOrder_sizes]
    simp

end OrderHistory

/-! ## The two phone formats -/

theorem filter_isDigit_of_digits (l : List Char)
    (h : ∀ c ∈ l, c.isDigit = true) : l.filter Char.isDigit = l := by
  rw [List.filter_eq_self]
  exact h

theorem formatPhone_of_digits (phone : String) (hne : phone ≠ "")
    (h : ∀ c ∈ phone.data, c.isDigit = true) :
    OrderDetailsModal.formatPhone (some phone) = OrderTable.phoneCell phone := by
  have hb : (phone == "") = false := by simpa using hne
  unfold OrderDetailsModal.formatPhone OrderTable.phoneCell
    OrderTable.stripCountryCode
  simp only [hb, Bool.false_eq_true, if_false, filter_isDigit_of_digits _ h]
  have hplus : ['+', '9', '1'].isPrefixOf phone.data = false := by
    cases hd : phone.data with
    | nil => rfl
    | cons c r =>
      have hc : c.isDigit = true := h c (by rw [hd]; exact List.mem_cons_self _ _)
      have hcp : c ≠ '+' := by
        intro hcp
        rw [hcp] at hc
        exact absurd hc (by decide)
      simp [List.isPrefixOf, hcp.symm]
  rw [hplus]
  simp only [Bool.false_eq_true, if_false]
  by_cases h91 : ['9', '1'].isPrefixOf phone.data = true
  · simp only [h91, if_true]
    rw [List.isPrefixOf_iff_prefix] at h91
    obtain ⟨r, hr⟩ := h91
    rw [String.ext_iff, String.data_append, ← hr]
    rfl
  · simp only [h91, Bool.false_eq_true, if_false]
    rw [String.ext_iff, String.data_append]

theorem formatPhone_of_plus91 (phone : String) (d : List Char)
    (hd : phone.data = '+' :: '9' :: '1' :: d)
    (h : ∀ c ∈ d, c.isDigit = true) :
    OrderDetailsModal.formatPhone (some phone) = OrderTable.phoneCell phone := by
  have hne : phone ≠ "" := by
    intro h0
    rw [h0] at hd
    exact List.noConfusion hd
  have hb : (phone == "") = false := by simpa using hne
  have hf : phone.data.filter Char.isDigit = '9' :: '1' :: d := by
    rw [hd, List.filter_cons_of_neg (by decide), List.filter_cons_of_pos (by decide),
      List.filter_cons_of_pos (by decide), filter_isDigit_of_digits d h]
  unfold OrderDetailsModal.formatPhone OrderTable.phoneCell
    OrderTable.stripCountryCode
  simp only [hb, Bool.false_eq_true, if_false, hf]
  rw [String.ext_iff, String.data_append, hd]
  simp [List.isPrefixOf]

/-- C27, as stated, fails: for the empty phone string the modal shows the dash
placeholder and the table cell shows `+91-`. -/
theorem formatPhone_empty_differs :
    OrderDetailsModal.formatPhone (some "") = "—" ∧
    OrderTable.phoneCell "" = "+91-" ∧
    OrderDetailsModal.formatPhone (some "") ≠ OrderTable.phoneCell "" := by
  decide

/-- C27, amended: the two phone formats agree on every non-empty phone string
made only of decimal digits, optionally preceded by `+91`: `formatPhone` of it
is `+91-` followed by the phone with the prefix stripping of the table cell
applied. -/
theorem formatPhone_eq_phoneCell (phone : String) (hne : phone ≠ "")
    (hshape : (∀ c ∈ phone.data, c.isDigit = true) ∨
      ∃ d : List Char, phone.data = '+' :: '9' :: '1' :: d ∧
        ∀ c ∈ d, c.isDigit = true) :
    OrderDetailsModal.formatPhone (some phone) = OrderTable.phoneCell phone ∧
    OrderTable.phoneCell phone = "+91-" ++ OrderTable.stripCountryCode phone := by
  refine ⟨?_, rfl⟩
  rcases hshape with h | ⟨d, hd, h⟩
  · exact formatPhone_of_digits phone hne h
  · exact formatPhone_of_plus91 phone d hd h

/-- Witness of `formatPhone_eq_phoneCell`: a number stored with its country
code and a plus sign. -/
theorem formatPhone_eq_phoneCell_witness :
    OrderDetailsModal.formatPhone (some "+919876543210") = "+91-9876543210" ∧
    OrderTable.phoneCell "+919876543210" = "+91-9876543210" :=
  ⟨(formatPhone_eq_phoneCell "+919876543210" (by decide)
      (Or.inr ⟨"9876543210".data, rfl, by decide⟩)).1.trans (by decide),
   by decide⟩

/-! ## The summary cards -/

namespace OrderSummaryCards

theorem length_filter_cons (p : Order → Bool) (o : Order) (t : List Order) :
    ((o :: t).filter p).length = (t.filter p).length + (if p o then 1 else 0) := by
  cases h : p o with
  | true => rw [List.filter_cons_of_pos h]; simp
  | false => rw [List.filter_cons_of_neg (by simp [h])]; simp

theorem cardValue_total (l : List Order) :
    cardValue (stats (some l)) "Total Orders" = l.length := by
  simp [cardValue, stats, List.lookup]

theorem statusCardsSum_stats (l : List Order) :
    statusCardsSum (stats (some l))
      = (l.filter (fun o => o.orderStatus == some "Pending")).length
        + (l.filter (fun o => o.orderStatus == some "Preparing")).length
        + ((l.filter (fun o => o.orderStatus == some "Confirmed")).length
          + (l.filter (fun o => o.orderStatus == some "Completed")).length)
        + (l.filter (fun o => o.orderStatus == some "Delivered")).length
        + (l.filter (fun o => o.orderStatus == some "Cancelled")).length := by
  simp [statusCardsSum, cardValue, stats, List.lookup]

theorem status_flags_counted (o : Order) (h : CountedStatus o) :
    (if o.orderStatus == some "Pending" then 1 else 0)
      + (if o.orderStatus == some "Preparing" then 1 else 0)
      + ((if o.orderStatus == some "Confirmed" then 1 else 0)
        + (if o.orderStatus == some "Completed" then 1 else 0))
      + (if o.orderStatus == some "Delivered" then 1 else 0)
      + (if o.orderStatus == some "Cancelled" then 1 else 0)
      = 1 := by
  rcases h with h | h | h | h | h | h <;> rw [h] <;> decide

theorem status_flags_other (o : Order) (h : ¬ CountedStatus o) :
    (if o.orderStatus == some "Pending" then 1 else 0)
      + (if o.orderStatus == some "Preparing" then 1 else 0)
      + ((if o.orderStatus == some "Confirmed" then 1 else 0)
        + (if o.orderStatus == some "Completed" then 1 else 0))
      + (if o.orderStatus == some "Delivered" then 1 else 0)
      + (if o.orderStatus == some "Cancelled" then 1 else 0)
      = 0 := by
  unfold CountedStatus at h
  simp only [not_or] at h
  obtain ⟨h1, h2, h3, h4, h5, h6⟩ := h
  simp [h1, h2, h3, h4, h5, h6]

theorem statusCardsSum_eq_counted (l : List Order) :
    statusCardsSum (stats (some l))
      = (l.filter (fun o => decide (CountedStatus o))).length := by
  rw [statusCardsSum_stats]
  induction l with
  | nil => rfl
  | cons o t ih =>
    simp only [length_filter_cons]
    rw [← ih]
    by_cases h : CountedStatus o
    · have hf := status_flags_counted o h
      simp only [h, decide_True, if_true]
      omega
    · have hf := status_flags_other o h
      simp only [h, decide_False, Bool.false_eq_true, if_false]
      omega

/-- C28: the summary cards are consistent with the total. The card `Total
Orders` is the number of orders; the sum of the cards Pending, Preparing,
Completed, Delivered and Cancelled never exceeds it, and equals it exactly when
the `orderStatus` of every order is one of the six strings Pending, Preparing,
Confirmed, Completed, Delivered, Cancelled; an order with status `Accepted`
adds one to `Total Orders` and nothing to the status cards. -/
theorem stats_consistent (l : List Order) :
    cardValue (stats (some l)) "Total Orders" = l.length ∧
    statusCardsSum (stats (some l)) ≤ cardValue (stats (some l)) "Total Orders" ∧
    (statusCardsSum (stats (some l)) = cardValue (stats (some l)) "Total Orders" ↔
      ∀ o ∈ l, CountedStatus o) ∧
    (∀ o : Order, o.orderStatus = some "Accepted" →
      cardValue (stats (some (o :: l))) "Total Orders"
        = cardValue (stats (some l)) "Total Orders" + 1 ∧
      statusCardsSum (stats (some (o :: l))) = statusCardsSum (stats (some l))) := by
  rw [cardValue_total, statusCardsSum_eq_counted]
  refine ⟨rfl, List.length_filter_le _ l, ?_, ?_⟩
  · rw [List.filter_length_eq_length]
    simp
  · intro o ho
    rw [cardValue_total, statusCardsSum_eq_counted]
    refine ⟨rfl, ?_⟩
    have hn : ¬ CountedStatus o := by
      unfold CountedStatus
      rw [ho]
      decide
    rw [List.filter_cons_of_neg (by simpa using hn)]

/-- Witness of `stats_consistent`: an accepted order next to a pending one. -/
theorem stats_consistent_witness :
    stats (some [{ id := .num 2, orderStatus := some "Accepted" },
                 { id := .num 1, orderStatus := some "Pending" }])
      = [("Total Orders", 2), ("Pending", 1), ("Preparing", 0), ("Completed", 0),
         ("Delivered", 0), ("Cancelled", 0)] ∧
    statusCardsSum (stats (some [{ id := .num 2, orderStatus := some "Accepted" },
                                 { id := .num 1, orderStatus := some "Pending" }]))
      = statusCardsSum (stats (some [{ id := .num 1, orderStatus := some "Pending" }])) :=
  ⟨by decide,
   ((stats_consistent [{ id := .num 1, orderStatus := some "Pending" }]).2.2.2
      { id := .num 2, orderStatus := some "Accepted" } rfl).2⟩

end OrderSummaryCards

end OwnerDashboard
